import Mathlib

/-!
# Verification of the havoc policy condition language and decision engine

Shallow embedding of `tools/rule_engine.py` (lexer, recursive-descent parser,
evaluator) and `tools/policy_tools.py` (`evaluate_policy`, `diff_policies`)
together with the data model of `models.py`.

Modelling conventions:
* Python floats are modelled as `ℚ` (all literals in the grammar are finite
  decimals; no claim depends on binary rounding).
* Python exceptions are modelled by `Except PyError`; the code raises
  `SyntaxError` from both the lexer and the parser (modelled as
  `PyError.synError`), and `TypeError` / `ValueError` from numeric coercion.
  Exception message texts are not modelled.
* Dynamically typed values (`str | float | bool | None`) are the sum type
  `Value`; Python `==` semantics, truthiness and `float(...)` coercion are
  spelled out as `pyEq`, `pyBool` and `pyFloat`.
* Recursive descent and the lexer loop are written with an explicit fuel
  argument so that every definition is executable by kernel reduction; the
  fuel supplied by the entry points is far larger than the recursion depth
  ever reached on the given token list.
-/

namespace Havoc

/-! ## Dynamically typed values (Python `str | float | bool | None`) -/

/-- A runtime value of the rule engine: Python `str`, `float`/`int`, `bool`
or `None` (`None` is what `dict.get` returns for an absent key). -/
inductive Value where
  | vStr (s : String)
  | vNum (q : ℚ)
  | vBool (b : Bool)
  | vNone
deriving DecidableEq

/-- Python `==` on the values above. `bool` is a subclass of `int` in
Python, so `True == 1.0` and `False == 0` hold; strings compare equal only
to equal strings; `None` equals only `None`; all other cross-type
comparisons are unequal. Models the `lambda a, b: a == b` of `_CMP_OPS`. -/
def pyEq : Value → Value → Bool
  | .vStr a, .vStr b => a == b
  | .vNum a, .vNum b => a == b
  | .vBool a, .vBool b => a == b
  | .vBool a, .vNum b => (if a then (1 : ℚ) else 0) == b
  | .vNum a, .vBool b => a == (if b then (1 : ℚ) else 0)
  | .vNone, .vNone => true
  | _, _ => false

/-- Python truthiness `bool(v)`: non-zero number, non-empty string, `True`
are truthy; `None` is falsy. -/
def pyBool : Value → Bool
  | .vStr s => !(s == "")
  | .vNum q => !(q == 0)
  | .vBool b => b
  | .vNone => false

/-- Python whitespace characters (`\s` of the `re` module, ASCII range). -/
def isPySpace (c : Char) : Bool :=
  c == ' ' || c == Char.ofNat 9 || c == Char.ofNat 10 ||
  c == Char.ofNat 13 || c == Char.ofNat 12 || c == Char.ofNat 11

/-- Decimal digits to a natural number. -/
def digitsToNat (ds : List Char) : Nat :=
  ds.foldl (fun a c => a * 10 + (c.toNat - 48)) 0

/-- Unsigned mantissa of a Python float string: `digits`, `digits.digits`,
`digits.` or `.digits` (at least one digit overall). -/
def parseUnsigned (cs : List Char) : Option (ℚ × List Char) :=
  let ds := cs.takeWhile Char.isDigit
  let rest := cs.dropWhile Char.isDigit
  match rest with
  | '.' :: rest₂ =>
    let fs := rest₂.takeWhile Char.isDigit
    let rest₃ := rest₂.dropWhile Char.isDigit
    if ds.isEmpty && fs.isEmpty then none
    else some ((digitsToNat ds : ℚ) + (digitsToNat fs : ℚ) / ((10 : ℚ) ^ fs.length), rest₃)
  | _ => if ds.isEmpty then none else some ((digitsToNat ds : ℚ), rest)

/-- Optional exponent part `eNN` / `E+NN` / `e-NN` of a float string. -/
def parseExpPart (cs : List Char) : Option (Int × List Char) :=
  match cs with
  | [] => some (0, [])
  | c :: rest =>
    if c == 'e' || c == 'E' then
      let sr : Int × List Char :=
        match rest with
        | '+' :: r => (1, r)
        | '-' :: r => (-1, r)
        | r => (1, r)
      let ds := sr.2.takeWhile Char.isDigit
      let rest₃ := sr.2.dropWhile Char.isDigit
      if ds.isEmpty then none else some (sr.1 * (digitsToNat ds : Int), rest₃)
    else some (0, c :: rest)

/-- Model of Python `float(s)` on strings: surrounding whitespace is
stripped, then an optional sign, a decimal mantissa and an optional
exponent must consume the whole string.  (The `inf`/`nan`/digit-underscore
forms accepted by CPython are omitted; no policy value in this development
uses them.)  `none` models the `ValueError` raise. -/
def pyStrToRat? (s : String) : Option ℚ :=
  let cs := s.data.dropWhile isPySpace
  let cs := (cs.reverse.dropWhile isPySpace).reverse
  let sc : ℚ × List Char :=
    match cs with
    | '+' :: r => (1, r)
    | '-' :: r => (-1, r)
    | r => (1, r)
  match parseUnsigned sc.2 with
  | none => none
  | some (m, rest) =>
    match parseExpPart rest with
    | none => none
    | some (e, rest₂) => if rest₂.isEmpty then some (sc.1 * m * (10 : ℚ) ^ e) else none

/-- Errors raised by the rule engine.  The Python code raises
`SyntaxError` from both `tokenize` and `Parser` (`synError` here), and
`float()` raises `TypeError` on `None` and `ValueError` on a non-numeric
string. -/
inductive PyError where
  | synError
  | typeError
  | valueError
deriving DecidableEq

/-- Python `float(v)` on a rule-engine value: numbers are themselves,
booleans coerce to `1`/`0` (`bool` is an `int` subclass), strings parse or
raise `ValueError`, `None` raises `TypeError`. -/
def pyFloat : Value → Except PyError ℚ
  | .vNum q => .ok q
  | .vBool b => .ok (if b then 1 else 0)
  | .vStr s =>
    match pyStrToRat? s with
    | some q => .ok q
    | none => .error .valueError
  | .vNone => .error .typeError

/-! ## Lexer (`tokenize` of rule_engine.py) -/

/-- Tokens, mirroring `TokenType` with the attached `value`. -/
inductive Token where
  | ident (name : String)
  | str (s : String)
  | num (q : ℚ)
  | bool (b : Bool)
  | and
  | or
  | eq
  | neq
  | gt
  | gte
  | lt
  | lte
  | lparen
  | rparen
  | eof
deriving DecidableEq

/-- The `\w` class of the lexer patterns (ASCII letters, digits, underscore; the
conditions in scope are ASCII). -/
def isWordChar (c : Char) : Bool := c.isAlphanum || c == '_'

/-- The `\b` word boundary after a keyword: end of input or a non-word
character. -/
def atBoundary : List Char → Bool
  | [] => true
  | c :: _ => !isWordChar c

/-- Match a literal keyword followed by a word boundary (`AND\b` etc.);
returns the remaining characters on success. -/
def matchKw : List Char → List Char → Option (List Char)
  | [], cs => if atBoundary cs then some cs else none
  | _ :: _, [] => none
  | w :: ws, c :: cs => if c == w then matchKw ws cs else none

/-- The single-quote and double-quote characters (written via `Char.ofNat`
to keep string-literal syntax simple). -/
def squote : Char := Char.ofNat 39

def dquote : Char := Char.ofNat 34

/-- Lex a quoted string starting after the opening quote `q`: the regex
`'[^']*'` requires a closing quote, otherwise the pattern fails and—as no
later pattern matches a quote character—lexing fails. -/
def lexQuoted (q : Char) (rest : List Char) : Except PyError (Option Token × List Char) :=
  let content := rest.takeWhile (fun c => !(c == q))
  match rest.dropWhile (fun c => !(c == q)) with
  | _ :: r => .ok (some (.str (String.mk content)), r)
  | [] => .error .synError

/-- Lex a number token `-?\d+(\.\d+)?` given the digits start at `cs`
(after an optional minus handled by the caller). -/
def lexNumber (neg : Bool) (cs : List Char) : Option Token × List Char :=
  let ds := cs.takeWhile Char.isDigit
  let rest := cs.dropWhile Char.isDigit
  let intPart : ℚ := (digitsToNat ds : ℚ)
  match rest with
  | '.' :: d :: r =>
    if d.isDigit then
      let fs := (d :: r).takeWhile Char.isDigit
      let rest₂ := (d :: r).dropWhile Char.isDigit
      let v := intPart + (digitsToNat fs : ℚ) / ((10 : ℚ) ^ fs.length)
      (some (.num (if neg then -v else v)), rest₂)
    else (some (.num (if neg then -intPart else intPart)), rest)
  | _ => (some (.num (if neg then -intPart else intPart)), rest)

/-- One step of the lexer: try the `_PATTERNS` in their source order on a
non-empty input; returns the recognized token (`none` for a whitespace
run) and the remaining characters, or fails like the
`SyntaxError("Unexpected character ...")` raise. -/
def nextTok (cs : List Char) : Except PyError (Option Token × List Char) :=
  match cs with
  | [] => .error .synError
  | c :: rest =>
    if isPySpace c then .ok (none, (c :: rest).dropWhile isPySpace)
    else
      match matchKw ['A', 'N', 'D'] (c :: rest) with
      | some r => .ok (some .and, r)
      | none =>
      match matchKw ['O', 'R'] (c :: rest) with
      | some r => .ok (some .or, r)
      | none =>
      match matchKw ['t', 'r', 'u', 'e'] (c :: rest) with
      | some r => .ok (some (.bool true), r)
      | none =>
      match matchKw ['f', 'a', 'l', 's', 'e'] (c :: rest) with
      | some r => .ok (some (.bool false), r)
      | none =>
      match c :: rest with
      | '!' :: '=' :: r => .ok (some .neq, r)
      | '=' :: '=' :: r => .ok (some .eq, r)
      | '>' :: '=' :: r => .ok (some .gte, r)
      | '<' :: '=' :: r => .ok (some .lte, r)
      | '>' :: r => .ok (some .gt, r)
      | '<' :: r => .ok (some .lt, r)
      | '(' :: r => .ok (some .lparen, r)
      | ')' :: r => .ok (some .rparen, r)
      | _ =>
        if c == squote then lexQuoted squote rest
        else if c == dquote then lexQuoted dquote rest
        else if c == '-' then
          match rest with
          | d :: _ => if d.isDigit then .ok (lexNumber true rest) else .error .synError
          | [] => .error .synError
        else if c.isDigit then .ok (lexNumber false (c :: rest))
        else if c.isAlpha || c == '_' then
          .ok (some (.ident (String.mk ((c :: rest).takeWhile isWordChar))),
               (c :: rest).dropWhile isWordChar)
        else .error .synError

/-- The lexer loop of `tokenize`: consume tokens until the input is
exhausted, then append the `EOF` token.  Each step consumes at least one
character, so the fuel supplied by `tokenize` is never exhausted. -/
def tokLoop : Nat → List Char → Except PyError (List Token)
  | _, [] => .ok [.eof]
  | 0, _ :: _ => .error .synError
  | f + 1, c :: cs => do
    let tr ← nextTok (c :: cs)
    let toks ← tokLoop f tr.2
    match tr.1 with
    | some t => .ok (t :: toks)
    | none => .ok toks

/-- Model of `tokenize(expression)` of rule_engine.py. -/
def tokenize (s : String) : Except PyError (List Token) :=
  tokLoop (s.data.length + 1) s.data

/-! ## AST and parser -/

/-- Comparison operators of `ComparisonNode.op`. -/
inductive CmpOp where
  | eq
  | neq
  | gt
  | gte
  | lt
  | lte
deriving DecidableEq

/-- Boolean connectives of `BinaryOpNode.op`. -/
inductive BoolOp where
  | andOp
  | orOp
deriving DecidableEq

/-- The AST of rule_engine.py: `LiteralNode`, `IdentifierNode`,
`ComparisonNode`, `BinaryOpNode`. -/
inductive ASTNode where
  | lit (v : Value)
  | ident (name : String)
  | cmp (left : ASTNode) (op : CmpOp) (right : ASTNode)
  | logic (left : ASTNode) (op : BoolOp) (right : ASTNode)
deriving DecidableEq

/-- The comparison-operator test of `Parser._comparison`. -/
def cmpOpOfToken : Token → Option CmpOp
  | .eq => some .eq
  | .neq => some .neq
  | .gt => some .gt
  | .gte => some .gte
  | .lt => some .lt
  | .lte => some .lte
  | _ => none

/-- Model of `Parser._expect(RPAREN)`. -/
def expectRParen (toks : List Token) : Except PyError (List Token) :=
  match toks with
  | .rparen :: rest => .ok rest
  | _ => .error .synError

mutual

/-- Model of `Parser._or_expr`. -/
def parseOrExpr : Nat → List Token → Except PyError (ASTNode × List Token)
  | 0, _ => .error .synError
  | f + 1, toks => do
    let lr ← parseAndExpr f toks
    parseOrLoop f lr.1 lr.2

/-- The `while OR` loop of `Parser._or_expr`. -/
def parseOrLoop : Nat → ASTNode → List Token → Except PyError (ASTNode × List Token)
  | 0, _, _ => .error .synError
  | f + 1, left, toks =>
    match toks with
    | .or :: rest => do
      let rr ← parseAndExpr f rest
      parseOrLoop f (.logic left .orOp rr.1) rr.2
    | _ => .ok (left, toks)

/-- Model of `Parser._and_expr`. -/
def parseAndExpr : Nat → List Token → Except PyError (ASTNode × List Token)
  | 0, _ => .error .synError
  | f + 1, toks => do
    let lr ← parseCmpExpr f toks
    parseAndLoop f lr.1 lr.2

/-- The `while AND` loop of `Parser._and_expr`. -/
def parseAndLoop : Nat → ASTNode → List Token → Except PyError (ASTNode × List Token)
  | 0, _, _ => .error .synError
  | f + 1, left, toks =>
    match toks with
    | .and :: rest => do
      let rr ← parseCmpExpr f rest
      parseAndLoop f (.logic left .andOp rr.1) rr.2
    | _ => .ok (left, toks)

/-- Model of `Parser._comparison`: a leading `(` parses a parenthesized
sub-expression and returns it at once (without looking for a following
comparison operator); otherwise an atom optionally followed by a
comparison operator and a second atom. -/
def parseCmpExpr : Nat → List Token → Except PyError (ASTNode × List Token)
  | 0, _ => .error .synError
  | f + 1, toks =>
    match toks with
    | .lparen :: rest => do
      let nr ← parseOrExpr f rest
      let rest₂ ← expectRParen nr.2
      .ok (nr.1, rest₂)
    | _ => do
      let lr ← parseAtom f toks
      match lr.2 with
      | t :: rest₁ =>
        match cmpOpOfToken t with
        | some op => do
          let rr ← parseAtom f rest₁
          .ok (.cmp lr.1 op rr.1, rr.2)
        | none => .ok (lr.1, lr.2)
      | [] => .ok (lr.1, lr.2)

/-- Model of `Parser._atom`: identifier, literal, or a parenthesized
sub-expression. -/
def parseAtom : Nat → List Token → Except PyError (ASTNode × List Token)
  | 0, _ => .error .synError
  | f + 1, toks =>
    match toks with
    | .ident n :: rest => .ok (.ident n, rest)
    | .str s :: rest => .ok (.lit (.vStr s), rest)
    | .num q :: rest => .ok (.lit (.vNum q), rest)
    | .bool b :: rest => .ok (.lit (.vBool b), rest)
    | .lparen :: rest => do
      let nr ← parseOrExpr f rest
      let rest₂ ← expectRParen nr.2
      .ok (nr.1, rest₂)
    | _ => .error .synError

end

/-- Model of `Parser.parse`: parse a full expression and require the next token to
be `EOF`.  The fuel is comfortably larger than the recursion depth the
parser can reach on the given token list. -/
def parseTokens (toks : List Token) : Except PyError ASTNode := do
  let nr ← parseOrExpr (4 * toks.length + 8) toks
  match nr.2 with
  | .eof :: _ => .ok nr.1
  | _ => .error .synError

/-- Lex and parse a condition string. -/
def parseCondition (s : String) : Except PyError ASTNode := do
  let toks ← tokenize s
  parseTokens toks

/-! ## Evaluator -/

/-- An evaluation context: Python dict from fact name to value.  Keys in
the contexts built by the engine are distinct. -/
abbrev Ctx := List (String × Value)

/-- Model of `context.get(name)`: `None` for an absent key. -/
def ctxGet (ctx : Ctx) (name : String) : Value :=
  (ctx.lookup name).getD .vNone

/-- Model of `_CMP_OPS[op](a, b)`: type-aware only through Python `==`; ordering
operators coerce both operands with `float(...)` (left first). -/
def applyCmp (op : CmpOp) (a b : Value) : Except PyError Value :=
  match op with
  | .eq => .ok (.vBool (pyEq a b))
  | .neq => .ok (.vBool (!pyEq a b))
  | .gt => do
    let x ← pyFloat a
    let y ← pyFloat b
    .ok (.vBool (decide (x > y)))
  | .gte => do
    let x ← pyFloat a
    let y ← pyFloat b
    .ok (.vBool (decide (x ≥ y)))
  | .lt => do
    let x ← pyFloat a
    let y ← pyFloat b
    .ok (.vBool (decide (x < y)))
  | .lte => do
    let x ← pyFloat a
    let y ← pyFloat b
    .ok (.vBool (decide (x ≤ y)))

/-- Model of `evaluate(node, context)` of rule_engine.py. -/
def evaluate : ASTNode → Ctx → Except PyError Value
  | .lit v, _ => .ok v
  | .ident n, ctx => .ok (ctxGet ctx n)
  | .cmp l op r, ctx => do
    let a ← evaluate l ctx
    let b ← evaluate r ctx
    applyCmp op a b
  | .logic l op r, ctx => do
    let a ← evaluate l ctx
    match op with
    | .andOp =>
      if pyBool a then do
        let b ← evaluate r ctx
        .ok (.vBool (pyBool b))
      else .ok (.vBool false)
    | .orOp =>
      if pyBool a then .ok (.vBool true)
      else do
        let b ← evaluate r ctx
        .ok (.vBool (pyBool b))

/-- Model of `evaluate_condition(condition, context)`: tokenize, parse, evaluate,
coerce to `bool`. -/
def evaluate_condition (condition : String) (ctx : Ctx) : Except PyError Bool := do
  let toks ← tokenize condition
  let ast ← parseTokens toks
  let v ← evaluate ast ctx
  .ok (pyBool v)

/-! ## Data model (models.py)

Pydantic literal-string enums are modelled as `String`; floats as `ℚ`;
`datetime`/uuid fields and the fields never consulted by the modelled
operations are omitted. -/

/-- Model of `DocumentSource` of models.py. -/
structure DocumentSource where
  document_id : String
  document_name : String
  page : Int := 0
  /-- The `section` field (renamed: `section` is a Lean keyword). -/
  section_ : String := ""
  table_id : Option String := none
  row : Option Int := none
  cell_text : String := ""
  bbox : Option (List ℚ) := none
  confidence : ℚ := 1
deriving DecidableEq

/-- Model of `DecisionRule` of models.py. -/
structure DecisionRule where
  id : String
  priority : Int := 0
  condition : String
  action : String := "SORT"
  target_bin : String := ""
  source : Option DocumentSource := none
deriving DecidableEq

/-- Model of `SafetyConstraint` of models.py. -/
structure SafetyConstraint where
  id : String
  parameter : String
  operator : String := "<="
  value : ℚ
  unit : String := ""
  source : Option DocumentSource := none
deriving DecidableEq

/-- Model of `DefaultAction` of models.py. -/
structure DefaultAction where
  action : String := "MANUAL_REVIEW"
  target_bin : String := "REVIEW_BIN"
deriving DecidableEq

/-- Model of `PartClassification` of models.py. -/
structure PartClassification where
  color : String := "unknown"
  color_hex : String := "#000000"
  size_mm : ℚ := 0
  size_category : String := "medium"
  part_type : String := "unknown"
  shape : String := "irregular"
  confidence : ℚ := 0
deriving DecidableEq

/-- Model of `DefectDetail` of models.py. -/
structure DefectDetail where
  type : String := "scratch"
  severity : String := "minor"
  location : String := "center"
  confidence : ℚ := 0
deriving DecidableEq

/-- Model of `DefectInspection` of models.py. -/
structure DefectInspection where
  defect_detected : Bool := false
  defects : List DefectDetail := []
  surface_quality : String := "perfect"
  overall_confidence : ℚ := 0
deriving DecidableEq

/-- Model of `ExecutablePolicy` of models.py, restricted to the fields the modelled
operations (`evaluate_policy`, `check_safety`, `diff_policies`) consult;
`policy_id`, `version`, `status`, timestamps, vision instructions,
inspection criteria, workflows, conflicts and validation are never read by
them and are omitted. -/
structure ExecutablePolicy where
  decision_rules : List DecisionRule := []
  safety_constraints : List SafetyConstraint := []
  default_action : DefaultAction := {}
deriving DecidableEq

/-- Model of `Decision` of models.py.  The `part_id` field (a random uuid default
never assigned by `evaluate_policy`) is omitted. -/
structure Decision where
  target_bin : String := "REVIEW_BIN"
  action : String := "SORT"
  rule_id : String := ""
  rule_condition : String := ""
  source : Option DocumentSource := none
  confidence : ℚ := 0
  requires_operator : Bool := false
deriving DecidableEq

/-- Modelled from the spec: the class `PolicyDiff` is imported by
policy_tools.py from `models` but its declaration is not among the
provided sources.  Per spec §3 it is "one of {rule added, rule modified
(condition or target changed), rule removed, threshold changed}, carrying
old/new values and provenance for audit"; the field names, types and
defaults are reconstructed from the keyword arguments of every
`PolicyDiff(...)` construction in `diff_policies`. -/
structure PolicyDiff where
  diff_type : String
  rule_id : String
  old_value : Option String := none
  new_value : Option String := none
  source_old : Option DocumentSource := none
  source_new : Option DocumentSource := none
  impact : String := ""
  affected_bins : List String := []
deriving DecidableEq

/-! ## Decision engine (`evaluate_policy` of policy_tools.py) -/

/-- The fact context built by `evaluate_policy` from the classification
and the defect inspection. -/
def mkContext (cl : PartClassification) (df : DefectInspection) : Ctx :=
  [("color", .vStr cl.color),
   ("color_hex", .vStr cl.color_hex),
   ("size_mm", .vNum cl.size_mm),
   ("size_category", .vStr cl.size_category),
   ("part_type", .vStr cl.part_type),
   ("shape", .vStr cl.shape),
   ("confidence", .vNum cl.confidence),
   ("defect_detected", .vBool df.defect_detected),
   ("surface_quality", .vStr df.surface_quality),
   ("defect_count", .vNum (df.defects.length : ℚ))]

/-- Index-tagged copy of a list, `enumF i [a, b, ...] = [(i, a), (i+1, b), ...]`. -/
def enumF : Nat → List α → List (Nat × α)
  | _, [] => []
  | i, x :: xs => (i, x) :: enumF (i + 1) xs

/-- Insert an index-tagged rule into a run already sorted by priority,
after every element of strictly smaller priority.  Combined with `enumF`
(the suffix always carries larger original indices) this realizes the
stable sort. -/
def insertPair (p : Nat × DecisionRule) : List (Nat × DecisionRule) → List (Nat × DecisionRule)
  | [] => [p]
  | x :: xs => if x.2.priority < p.2.priority then x :: insertPair p xs else p :: x :: xs

/-- Stable insertion sort on index-tagged rules. -/
def sortPairs : List (Nat × DecisionRule) → List (Nat × DecisionRule)
  | [] => []
  | p :: ps => insertPair p (sortPairs ps)

/-- Model of `sorted(policy.decision_rules, key=lambda r: r.priority)`: Python's
`sorted` is a stable sort, i.e. exactly the ordering of the index-tagged
list by (priority, original index); modelled as a stable insertion
sort. -/
def pySorted (rules : List DecisionRule) : List DecisionRule :=
  (sortPairs (enumF 0 rules)).map (·.2)

/-- The scan loop of `evaluate_policy`: return the first rule whose
condition evaluates to `True`; a rule whose condition raises (lex, parse
or evaluation error) or evaluates falsy is skipped. -/
def scanRules (ctx : Ctx) : List DecisionRule → Option DecisionRule
  | [] => none
  | r :: rs =>
    match evaluate_condition r.condition ctx with
    | .ok true => some r
    | _ => scanRules ctx rs

/-- The `Decision(...)` built for a matched rule. -/
def decisionOfRule (cl : PartClassification) (r : DecisionRule) : Decision :=
  { target_bin := r.target_bin
    action := r.action
    rule_id := r.id
    rule_condition := r.condition
    source := r.source
    confidence := cl.confidence }

/-- The fallback `Decision(...)` built when the scan exhausts all rules. -/
def defaultDecision (cl : PartClassification) (policy : ExecutablePolicy) : Decision :=
  { target_bin := policy.default_action.target_bin
    action := policy.default_action.action
    rule_id := "DEFAULT"
    rule_condition := "no_rule_matched"
    confidence := cl.confidence }

/-- Model of `evaluate_policy(classification, defects, policy)` of policy_tools.py. -/
def evaluate_policy (cl : PartClassification) (df : DefectInspection)
    (policy : ExecutablePolicy) : Decision :=
  match scanRules (mkContext cl df) (pySorted policy.decision_rules) with
  | some r => decisionOfRule cl r
  | none => defaultDecision cl policy

/-! ## Policy diffing (`diff_policies` of policy_tools.py) -/

/-- Python dict insertion: overwrite in place if the key is present,
append otherwise. -/
def dictInsert (d : List (String × α)) (k : String) (v : α) : List (String × α) :=
  if d.any (fun p => p.1 == k) then
    d.map (fun p => if p.1 == k then (p.1, v) else p)
  else d ++ [(k, v)]

/-- The dict comprehension `{key(x): x for x in l}`: insertion-ordered,
later duplicates overwrite. -/
def dictOf (key : α → String) (l : List α) : List (String × α) :=
  l.foldl (fun d x => dictInsert d (key x) x) []

/-- Models `str(...)` on a numeric value inside the diff records; the
exact rendering is immaterial to every claim. -/
def ratStr (q : ℚ) : String :=
  if q.den = 1 then toString q.num else toString q.num ++ "/" ++ toString q.den

/-- The Python set literal `{a, b}` converted to a list.  For distinct
elements CPython's iteration order is hash-dependent; modelled as
insertion order (no claim inspects this field). -/
def setPairList (a b : String) : List String :=
  if a == b then [a] else [a, b]

/-- The `RULE_ADDED` diff of `diff_policies`. -/
def addedDiff (k : String) (nr : DecisionRule) : PolicyDiff :=
  { diff_type := "RULE_ADDED"
    rule_id := k
    new_value := some nr.condition
    source_new := nr.source
    impact := "New rule: " ++ nr.condition ++ " → " ++ nr.target_bin
    affected_bins := [nr.target_bin] }

/-- The condition-change `RULE_MODIFIED` diff of `diff_policies`. -/
def condModifiedDiff (k : String) (o n : DecisionRule) : PolicyDiff :=
  { diff_type := "RULE_MODIFIED"
    rule_id := k
    old_value := some o.condition
    new_value := some n.condition
    source_old := o.source
    source_new := n.source
    impact := "Condition changed: " ++ o.condition ++ " → " ++ n.condition
    affected_bins := setPairList o.target_bin n.target_bin }

/-- The target-change `RULE_MODIFIED` diff of `diff_policies`. -/
def targetModifiedDiff (k : String) (o n : DecisionRule) : PolicyDiff :=
  { diff_type := "RULE_MODIFIED"
    rule_id := k
    old_value := some o.target_bin
    new_value := some n.target_bin
    source_old := o.source
    source_new := n.source
    impact := "Target changed: " ++ o.target_bin ++ " → " ++ n.target_bin
    affected_bins := [o.target_bin, n.target_bin] }

/-- The `RULE_REMOVED` diff of `diff_policies`. -/
def removedDiff (k : String) (o : DecisionRule) : PolicyDiff :=
  { diff_type := "RULE_REMOVED"
    rule_id := k
    old_value := some o.condition
    source_old := o.source
    impact := "Rule removed: " ++ o.condition
    affected_bins := [o.target_bin] }

/-- The `THRESHOLD_CHANGED` diff of `diff_policies`. -/
def thresholdDiff (p : String) (oc nc : SafetyConstraint) : PolicyDiff :=
  { diff_type := "THRESHOLD_CHANGED"
    rule_id := "safety_" ++ p
    old_value := some (ratStr oc.value)
    new_value := some (ratStr nc.value)
    source_new := nc.source
    impact := "Safety threshold " ++ p ++ ": " ++ ratStr oc.value ++ " → " ++ ratStr nc.value }

/-- The body of the first loop of `diff_policies` for one entry of the
new-rules dict: `RULE_ADDED` if the id is new, otherwise the
condition-change diff, `elif` the target-change diff, else nothing. -/
def diffForRule (old_rules : List (String × DecisionRule))
    (e : String × DecisionRule) : List PolicyDiff :=
  match old_rules.lookup e.1 with
  | none => [addedDiff e.1 e.2]
  | some o =>
    if o.condition ≠ e.2.condition then [condModifiedDiff e.1 o e.2]
    else if o.target_bin ≠ e.2.target_bin then [targetModifiedDiff e.1 o e.2]
    else []

/-- Model of `diff_policies(old, new)` of policy_tools.py: the three loops append
to one list — added/modified rules (iterating the new-rules dict), removed
rules (iterating the old-rules dict), then safety-threshold changes
(iterating the new-constraints dict, keyed by parameter name). -/
def diff_policies (oldP newP : ExecutablePolicy) : List PolicyDiff :=
  let old_rules := dictOf (·.id) oldP.decision_rules
  let new_rules := dictOf (·.id) newP.decision_rules
  let old_safety := dictOf (·.parameter) oldP.safety_constraints
  let new_safety := dictOf (·.parameter) newP.safety_constraints
  (new_rules.flatMap (diffForRule old_rules))
  ++ ((old_rules.filter (fun e => (new_rules.lookup e.1).isNone)).map
      (fun e => removedDiff e.1 e.2))
  ++ (new_safety.filterMap (fun e =>
      match old_safety.lookup e.1 with
      | some oc => if oc.value ≠ e.2.value then some (thresholdDiff e.1 oc e.2) else none
      | none => none))

/-! ## Auxiliary definitions used by the verification -/

/-- Whether a rule's condition evaluates to `True` in a context (the test
of the scan loop; an error or a falsy result both mean "no match"). -/
def matchesB (ctx : Ctx) (r : DecisionRule) : Bool :=
  match evaluate_condition r.condition ctx with
  | .ok true => true
  | _ => false

/-- The stable-sort order on index-tagged rules: smaller priority first,
ties by original position. -/
def lexLe (a b : Nat × DecisionRule) : Prop :=
  a.2.priority < b.2.priority ∨ (a.2.priority = b.2.priority ∧ a.1 ≤ b.1)

/-- Index adjustment used to compare scans before and after removing the
list element at position `k`: positions before `k` are unchanged,
positions after it move down by one. -/
def shiftPair (k : Nat) (p : Nat × DecisionRule) : Nat × DecisionRule :=
  if p.1 ≤ k then p else (p.1 - 1, p.2)

/-- A `Literal` or `Identifier` node. -/
def isAtomNode : ASTNode → Bool
  | .lit _ => true
  | .ident _ => true
  | _ => false

/-- Every `Comparison` node of the tree has a `Literal` or `Identifier`
node on both sides (the shape asserted by spec §3 for the AST). -/
def atomicCmps : ASTNode → Bool
  | .lit _ => true
  | .ident _ => true
  | .cmp l _ r => isAtomNode l && isAtomNode r
  | .logic l _ r => atomicCmps l && atomicCmps r

/-- The four ordering comparison operators. -/
def isOrderingOp : CmpOp → Bool
  | .gt | .gte | .lt | .lte => true
  | _ => false

/-- The standard numeric ordering result an ordering operator returns on
two coerced operands. -/
def ordCompare : CmpOp → ℚ → ℚ → Bool
  | .gt, x, y => decide (x > y)
  | .gte, x, y => decide (x ≥ y)
  | .lt, x, y => decide (x < y)
  | .lte, x, y => decide (x ≤ y)
  | _, _, _ => false

/-- A string value that `float(...)` rejects. -/
def nonNumericStr (v : Value) : Prop :=
  ∃ s, v = Value.vStr s ∧ pyStrToRat? s = none

/-- A token that `Parser._atom` accepts without parentheses, with the node
it produces. -/
def atomNodeOfToken : Token → Option ASTNode
  | .ident n => some (.ident n)
  | .str s => some (.lit (.vStr s))
  | .num q => some (.lit (.vNum q))
  | .bool b => some (.lit (.vBool b))
  | _ => none

/-- Concrete rule used by the policy-diff counterexample: old version. -/
def sampleOldRule : DecisionRule :=
  { id := "r1", priority := 1, condition := "size_mm > 50", target_bin := "A" }

/-- Concrete rule used by the policy-diff counterexample: new version,
with both the condition and the target bin changed. -/
def sampleNewRule : DecisionRule :=
  { id := "r1", priority := 1, condition := "size_mm > 60", target_bin := "B" }

/-- Old policy of the diff counterexample. -/
def sampleOldPolicy : ExecutablePolicy := { decision_rules := [sampleOldRule] }

/-- New policy of the diff counterexample. -/
def sampleNewPolicy : ExecutablePolicy := { decision_rules := [sampleNewRule] }

/-- Concrete always-true rule used by the decision-engine witnesses. -/
def sampleTrueRule : DecisionRule :=
  { id := "R1", priority := 5, condition := "true", target_bin := "BIN_A" }

/-- Concrete single-rule policy used by the decision-engine witnesses. -/
def sampleMatchPolicy : ExecutablePolicy := { decision_rules := [sampleTrueRule] }

/-! ## Facts about the value semantics -/

/-- The unset value is `==`-equal exactly to itself. -/
theorem pyEq_vNone_iff (w : Value) : pyEq .vNone w = true ↔ w = .vNone := by
  cases w <;> simp [pyEq]

/-- Python `float(...)` raises `TypeError` exactly on the unset value. -/
theorem pyFloat_typeError_iff (v : Value) : pyFloat v = .error .typeError ↔ v = .vNone := by
  cases v with
  | vStr s => cases hs : pyStrToRat? s <;> simp [pyFloat, hs]
  | _ => simp [pyFloat]

/-- Python `float(...)` raises `ValueError` exactly on a non-numeric string. -/
theorem pyFloat_valueError_iff (v : Value) :
    pyFloat v = .error .valueError ↔ nonNumericStr v := by
  cases v with
  | vStr s => cases hs : pyStrToRat? s <;> simp [pyFloat, hs, nonNumericStr]
  | _ => simp [pyFloat, nonNumericStr]

/-- C4 (counterexample): a comparison referencing an identifier absent
from the context can make the rule match: with an empty context,
`x != 5` evaluates to `None != 5.0`, which is `True`, and `x == y` with
both identifiers absent evaluates to `None == None`, which is `True` —
refuting "never makes the rule match" and "compares unequal to
everything". -/
theorem absent_fact_can_match :
    evaluate_condition "x != 5" ([] : Ctx) = .ok true ∧
    evaluate_condition "x == y" ([] : Ctx) = .ok true := by
  constructor <;> rfl

/-- C4 (amended): evaluation of `==`/`!=` on an identifier absent from
the context never throws; against any operand whose value is not the
unset value, `==` is `False` (so such a rule does not match via `==`) and
`!=` is `True` (so it does match via `!=`); the absent identifier
resolves to the unset value, which is falsy in a truthy check. -/
theorem absent_fact_eq_soft_fail (ctx : Ctx) (name : String)
    (h : ctx.lookup name = none) :
    (∀ rhs w, evaluate rhs ctx = .ok w → w ≠ Value.vNone →
        evaluate (.cmp (.ident name) .eq rhs) ctx = .ok (.vBool false) ∧
        evaluate (.cmp (.ident name) .neq rhs) ctx = .ok (.vBool true)) ∧
    (∀ rhs w, evaluate rhs ctx = .ok w →
        ∃ c, evaluate (.cmp (.ident name) .eq rhs) ctx = .ok (.vBool c) ∧
             evaluate (.cmp (.ident name) .neq rhs) ctx = .ok (.vBool (!c))) ∧
    evaluate (.ident name) ctx = .ok Value.vNone ∧
    pyBool Value.vNone = false := by
  have hg : ctxGet ctx name = .vNone := by simp [ctxGet, h]
  have hev : evaluate (.ident name) ctx = .ok Value.vNone := by simp [evaluate, hg]
  refine ⟨?_, ?_, hev, rfl⟩
  · intro rhs w hw hne
    have hfalse : pyEq .vNone w = false := by
      cases hq : pyEq .vNone w
      · rfl
      · exact absurd ((pyEq_vNone_iff w).mp hq) hne
    constructor <;>
      simp [evaluate, hg, hw, applyCmp, Bind.bind, Except.bind, hfalse]
  · intro rhs w hw
    exact ⟨pyEq .vNone w, by
      constructor <;>
        simp [evaluate, hg, hw, applyCmp, Bind.bind, Except.bind]⟩

/-- C4 (witness): the amended theorem applied to the empty context, the
identifier `x` and the literal operand `5`. -/
theorem absent_fact_eq_soft_fail_witness :
    ([] : Ctx).lookup "x" = none ∧
    evaluate (.cmp (.ident "x") .eq (.lit (.vNum 5))) ([] : Ctx) = .ok (.vBool false) :=
  ⟨rfl, ((absent_fact_eq_soft_fail [] "x" rfl).1 (.lit (.vNum 5)) (.vNum 5) rfl
      (by decide)).1⟩

/-- C5 (counterexample): `==` does coerce across the boolean/number type
boundary: `defect_detected == 1` with the fact `defect_detected = True`
evaluates to `True` (Python `bool` is an `int` subclass), refuting "a
boolean operand is never treated as equal to a number". -/
theorem bool_number_eq_coerces :
    evaluate_condition "defect_detected == 1" [("defect_detected", .vBool true)]
      = .ok true := by rfl

/-- C5 (amended): `==`/`!=` are type-aware between strings and every
other type (a string compares equal only to the identical string) and
between numbers, booleans and the unset value as follows: numbers compare
by value, booleans compare by value, and a boolean operand compared with
a number is coerced to `1`/`0`, so boolean–number equality follows
numeric equality; `!=` is the pointwise negation of `==`. -/
theorem pyEq_type_behavior :
    (∀ s v, pyEq (.vStr s) v = true ↔ v = .vStr s) ∧
    (∀ v s, pyEq v (.vStr s) = true ↔ v = .vStr s) ∧
    (∀ x y, pyEq (.vNum x) (.vNum y) = decide (x = y)) ∧
    (∀ x y, pyEq (.vBool x) (.vBool y) = (x == y)) ∧
    (∀ x y, pyEq (.vBool x) (.vNum y) = decide ((if x then (1 : ℚ) else 0) = y)) ∧
    (∀ x y, pyEq (.vNum x) (.vBool y) = decide (x = (if y then (1 : ℚ) else 0))) ∧
    (∀ a b, applyCmp .eq a b = .ok (.vBool (pyEq a b))) ∧
    (∀ a b, applyCmp .neq a b = .ok (.vBool (!pyEq a b))) := by
  refine ⟨?_, ?_, ?_, ?_, ?_, ?_, fun a b => rfl, fun a b => rfl⟩
  · intro s v
    cases v with
    | vStr t =>
      rw [show pyEq (.vStr s) (.vStr t) = (s == t) from rfl, beq_iff_eq,
        Value.vStr.injEq]
      exact eq_comm
    | vNum q => simp [pyEq]
    | vBool c => simp [pyEq]
    | vNone => simp [pyEq]
  · intro v s
    cases v with
    | vStr t =>
      rw [show pyEq (.vStr t) (.vStr s) = (t == s) from rfl, beq_iff_eq,
        Value.vStr.injEq]
    | vNum q => simp [pyEq]
    | vBool c => simp [pyEq]
    | vNone => simp [pyEq]
  · intro x y
    rw [show pyEq (.vNum x) (.vNum y) = (x == y) from rfl]
    rw [Bool.eq_iff_iff]
    simp [beq_iff_eq]
  · intro x y
    rfl
  · intro x y
    rw [show pyEq (.vBool x) (.vNum y) = ((if x then (1 : ℚ) else 0) == y) from rfl]
    rw [Bool.eq_iff_iff]
    simp [beq_iff_eq]
  · intro x y
    rw [show pyEq (.vNum x) (.vBool y) = (x == (if y then (1 : ℚ) else 0)) from rfl]
    rw [Bool.eq_iff_iff]
    simp [beq_iff_eq]

/-- C6 (counterexample): an ordering comparison on a non-numeric string
operand fails with `ValueError` (Python `float("abc")`), not with
`TypeError` as claimed. -/
theorem ordering_nonnumeric_string_valueerror :
    evaluate_condition "size_mm > 50" [("size_mm", .vStr "abc")]
        = .error .valueError ∧
    PyError.valueError ≠ PyError.typeError := by
  exact ⟨by rfl, by decide⟩

/-- C6 (amended): an ordering comparison succeeds exactly when both
operands coerce to numeric (`float(...)`), and then returns the standard
numeric ordering; when coercion fails the error is `TypeError` if the
offending operand (left first) is the unset value and `ValueError` if it
is a non-numeric string. -/
theorem ordering_cmp_coercion_errors (op : CmpOp) (a b : Value)
    (hop : isOrderingOp op = true) :
    ((∃ v, applyCmp op a b = .ok v) ↔
        ((pyFloat a).isOk = true ∧ (pyFloat b).isOk = true)) ∧
    (∀ x y, pyFloat a = .ok x → pyFloat b = .ok y →
        applyCmp op a b = .ok (.vBool (ordCompare op x y))) ∧
    (applyCmp op a b = .error .typeError ↔
        (a = .vNone ∨ ((pyFloat a).isOk = true ∧ b = .vNone))) ∧
    (applyCmp op a b = .error .valueError ↔
        (nonNumericStr a ∨ ((pyFloat a).isOk = true ∧ nonNumericStr b))) := by
  have hbind : applyCmp op a b =
      (pyFloat a).bind fun x => (pyFloat b).bind fun y =>
        .ok (.vBool (ordCompare op x y)) := by
    cases op <;> first
      | exact absurd hop (by decide)
      | rfl
  have hok : (∃ v, applyCmp op a b = .ok v) ↔
      ((pyFloat a).isOk = true ∧ (pyFloat b).isOk = true) := by
    rw [hbind]
    cases hA : pyFloat a <;> cases hB : pyFloat b <;>
      simp [Except.bind, Except.isOk, Except.toBool]
  have herr : ∀ e : PyError, (applyCmp op a b = .error e ↔
      (pyFloat a = .error e ∨ ((pyFloat a).isOk = true ∧ pyFloat b = .error e))) := by
    intro e
    rw [hbind]
    cases hA : pyFloat a <;> cases hB : pyFloat b <;>
      simp [Except.bind, Except.isOk, Except.toBool, eq_comm]
  refine ⟨hok, ?_, ?_, ?_⟩
  · intro x y hx hy
    rw [hbind, hx]
    show Except.bind (pyFloat b) _ = _
    rw [hy]
    rfl
  · rw [herr .typeError, pyFloat_typeError_iff, pyFloat_typeError_iff]
  · rw [herr .valueError, pyFloat_valueError_iff, pyFloat_valueError_iff]

/-! ## Parser shape lemmas -/

/-- A `Literal`/`Identifier` node trivially satisfies the atomic-operands
invariant. -/
theorem atomicCmps_of_isAtomNode {a : ASTNode} (h : isAtomNode a = true) :
    atomicCmps a = true := by
  cases a <;> simp_all [isAtomNode, atomicCmps]

/-- Bind of `Except` on a success, as a rewrite rule for the do-notation. -/
theorem ok_bind {α β ε : Type} (a : α) (f : α → Except ε β) :
    ((Except.ok a : Except ε α) >>= f) = f a := rfl

/-- On a token stream containing no `(`, every parser production returns a
tree whose `Comparison` nodes have `Literal`/`Identifier` operands, and
consumes tokens from the front (the unconsumed rest is a sublist). -/
theorem parser_no_paren (fuel : Nat) :
    (∀ toks r, parseAtom fuel toks = .ok r → (∀ t ∈ toks, t ≠ Token.lparen) →
        isAtomNode r.1 = true ∧ r.2.Sublist toks) ∧
    (∀ toks r, parseCmpExpr fuel toks = .ok r → (∀ t ∈ toks, t ≠ Token.lparen) →
        atomicCmps r.1 = true ∧ r.2.Sublist toks) ∧
    (∀ toks left r, parseAndLoop fuel left toks = .ok r →
        (∀ t ∈ toks, t ≠ Token.lparen) → atomicCmps left = true →
        atomicCmps r.1 = true ∧ r.2.Sublist toks) ∧
    (∀ toks r, parseAndExpr fuel toks = .ok r → (∀ t ∈ toks, t ≠ Token.lparen) →
        atomicCmps r.1 = true ∧ r.2.Sublist toks) ∧
    (∀ toks left r, parseOrLoop fuel left toks = .ok r →
        (∀ t ∈ toks, t ≠ Token.lparen) → atomicCmps left = true →
        atomicCmps r.1 = true ∧ r.2.Sublist toks) ∧
    (∀ toks r, parseOrExpr fuel toks = .ok r → (∀ t ∈ toks, t ≠ Token.lparen) →
        atomicCmps r.1 = true ∧ r.2.Sublist toks) := by
  induction fuel with
  | zero =>
    refine ⟨?_, ?_, ?_, ?_, ?_, ?_⟩ <;> intro toks
    · intro r h; cases h
    · intro r h; cases h
    · intro left r h; cases h
    · intro r h; cases h
    · intro left r h; cases h
    · intro r h; cases h
  | succ f ih =>
    obtain ⟨ihAtom, ihCmp, ihAndLoop, ihAnd, ihOrLoop, ihOr⟩ := ih
    have hAtom : ∀ toks r, parseAtom (f + 1) toks = .ok r →
        (∀ t ∈ toks, t ≠ Token.lparen) → isAtomNode r.1 = true ∧ r.2.Sublist toks := by
      intro toks r hok hnp
      cases toks with
      | nil => cases hok
      | cons t rest =>
        cases t with
        | ident n =>
          cases hok
          exact ⟨rfl, List.sublist_cons_self _ _⟩
        | str s =>
          cases hok
          exact ⟨rfl, List.sublist_cons_self _ _⟩
        | num q =>
          cases hok
          exact ⟨rfl, List.sublist_cons_self _ _⟩
        | bool b =>
          cases hok
          exact ⟨rfl, List.sublist_cons_self _ _⟩
        | lparen => exact absurd rfl (hnp _ (List.mem_cons_self _ _))
        | _ => cases hok
    have hCmp : ∀ toks r, parseCmpExpr (f + 1) toks = .ok r →
        (∀ t ∈ toks, t ≠ Token.lparen) → atomicCmps r.1 = true ∧ r.2.Sublist toks := by
      intro toks r hok hnp
      have hbody : (do
          let lr ← parseAtom f toks
          match lr.2 with
          | t :: rest₁ =>
            match cmpOpOfToken t with
            | some op => do
              let rr ← parseAtom f rest₁
              pure (ASTNode.cmp lr.1 op rr.1, rr.2)
            | none => pure (lr.1, lr.2)
          | [] => pure (lr.1, lr.2) : Except PyError (ASTNode × List Token)) = .ok r := by
        rw [← hok]
        cases toks with
        | nil => rfl
        | cons t rest =>
          cases t with
          | lparen => exact absurd rfl (hnp _ (List.mem_cons_self _ _))
          | _ => rfl
      clear hok
      cases hatom : parseAtom f toks with
      | error e => rw [hatom] at hbody; cases hbody
      | ok lr =>
        rw [hatom] at hbody
        obtain ⟨ha1, ha2⟩ := ihAtom toks lr hatom hnp
        simp only [ok_bind] at hbody
        cases hrest : lr.2 with
        | nil =>
          rw [hrest] at hbody
          cases hbody
          exact ⟨atomicCmps_of_isAtomNode ha1, by rw [hrest] at ha2; exact ha2⟩
        | cons t rest₁ =>
          rw [hrest] at hbody
          replace hbody : (match cmpOpOfToken t with
              | some op => do
                let rr ← parseAtom f rest₁
                pure (ASTNode.cmp lr.1 op rr.1, rr.2)
              | none => pure (lr.1, t :: rest₁) :
                Except PyError (ASTNode × List Token)) = .ok r := hbody
          cases hco : cmpOpOfToken t with
          | none =>
            rw [hco] at hbody
            cases hbody
            exact ⟨atomicCmps_of_isAtomNode ha1, hrest ▸ ha2⟩
          | some op =>
            rw [hco] at hbody
            have hsub₁ : rest₁.Sublist toks := by
              rw [hrest] at ha2
              exact (List.sublist_cons_self t rest₁).trans ha2
            cases hatom₂ : parseAtom f rest₁ with
            | error e => rw [hatom₂] at hbody; cases hbody
            | ok rr =>
              rw [hatom₂] at hbody
              obtain ⟨hb1, hb2⟩ := ihAtom rest₁ rr hatom₂
                (fun t ht => hnp t (hsub₁.subset ht))
              cases hbody
              refine ⟨?_, hb2.trans hsub₁⟩
              simp [atomicCmps, ha1, hb1]
    have hAndLoop : ∀ toks left r, parseAndLoop (f + 1) left toks = .ok r →
        (∀ t ∈ toks, t ≠ Token.lparen) → atomicCmps left = true →
        atomicCmps r.1 = true ∧ r.2.Sublist toks := by
      intro toks left r hok hnp hleft
      cases toks with
      | nil =>
        cases hok
        exact ⟨hleft, List.Sublist.refl _⟩
      | cons t rest =>
        cases t with
        | and =>
          have hbody : (do
              let rr ← parseCmpExpr f rest
              parseAndLoop f (.logic left .andOp rr.1) rr.2 :
                Except PyError (ASTNode × List Token)) = .ok r := hok
          clear hok
          cases hcmp : parseCmpExpr f rest with
          | error e => rw [hcmp] at hbody; cases hbody
          | ok rr =>
            rw [hcmp] at hbody
            have hnp' : ∀ t ∈ rest, t ≠ Token.lparen :=
              fun t ht => hnp t (List.mem_cons_of_mem _ ht)
            obtain ⟨hc1, hc2⟩ := ihCmp rest rr hcmp hnp'
            simp only [ok_bind] at hbody
            obtain ⟨hl1, hl2⟩ := ihAndLoop rr.2 (.logic left .andOp rr.1) r hbody
              (fun t ht => hnp' t (hc2.subset ht))
              (by simp [atomicCmps, hleft, hc1])
            exact ⟨hl1, (hl2.trans hc2).trans (List.sublist_cons_self _ _)⟩
        | _ =>
          cases hok
          exact ⟨hleft, List.Sublist.refl _⟩
    have hAnd : ∀ toks r, parseAndExpr (f + 1) toks = .ok r →
        (∀ t ∈ toks, t ≠ Token.lparen) → atomicCmps r.1 = true ∧ r.2.Sublist toks := by
      intro toks r hok hnp
      have hbody : (do
          let lr ← parseCmpExpr f toks
          parseAndLoop f lr.1 lr.2 : Except PyError (ASTNode × List Token)) = .ok r := hok
      clear hok
      cases hcmp : parseCmpExpr f toks with
      | error e => rw [hcmp] at hbody; cases hbody
      | ok lr =>
        rw [hcmp] at hbody
        obtain ⟨hc1, hc2⟩ := ihCmp toks lr hcmp hnp
        simp only [ok_bind] at hbody
        obtain ⟨hl1, hl2⟩ := ihAndLoop lr.2 lr.1 r hbody
          (fun t ht => hnp t (hc2.subset ht)) hc1
        exact ⟨hl1, hl2.trans hc2⟩
    have hOrLoop : ∀ toks left r, parseOrLoop (f + 1) left toks = .ok r →
        (∀ t ∈ toks, t ≠ Token.lparen) → atomicCmps left = true →
        atomicCmps r.1 = true ∧ r.2.Sublist toks := by
      intro toks left r hok hnp hleft
      cases toks with
      | nil =>
        cases hok
        exact ⟨hleft, List.Sublist.refl _⟩
      | cons t rest =>
        cases t with
        | or =>
          have hbody : (do
              let rr ← parseAndExpr f rest
              parseOrLoop f (.logic left .orOp rr.1) rr.2 :
                Except PyError (ASTNode × List Token)) = .ok r := hok
          clear hok
          cases hcmp : parseAndExpr f rest with
          | error e => rw [hcmp] at hbody; cases hbody
          | ok rr =>
            rw [hcmp] at hbody
            have hnp' : ∀ t ∈ rest, t ≠ Token.lparen :=
              fun t ht => hnp t (List.mem_cons_of_mem _ ht)
            obtain ⟨hc1, hc2⟩ := ihAnd rest rr hcmp hnp'
            simp only [ok_bind] at hbody
            obtain ⟨hl1, hl2⟩ := ihOrLoop rr.2 (.logic left .orOp rr.1) r hbody
              (fun t ht => hnp' t (hc2.subset ht))
              (by simp [atomicCmps, hleft, hc1])
            exact ⟨hl1, (hl2.trans hc2).trans (List.sublist_cons_self _ _)⟩
        | _ =>
          cases hok
          exact ⟨hleft, List.Sublist.refl _⟩
    have hOr : ∀ toks r, parseOrExpr (f + 1) toks = .ok r →
        (∀ t ∈ toks, t ≠ Token.lparen) → atomicCmps r.1 = true ∧ r.2.Sublist toks := by
      intro toks r hok hnp
      have hbody : (do
          let lr ← parseAndExpr f toks
          parseOrLoop f lr.1 lr.2 : Except PyError (ASTNode × List Token)) = .ok r := hok
      clear hok
      cases hcmp : parseAndExpr f toks with
      | error e => rw [hcmp] at hbody; cases hbody
      | ok lr =>
        rw [hcmp] at hbody
        obtain ⟨hc1, hc2⟩ := ihAnd toks lr hcmp hnp
        simp only [ok_bind] at hbody
        obtain ⟨hl1, hl2⟩ := ihOrLoop lr.2 lr.1 r hbody
          (fun t ht => hnp t (hc2.subset ht)) hc1
        exact ⟨hl1, hl2.trans hc2⟩
    exact ⟨hAtom, hCmp, hAndLoop, hAnd, hOrLoop, hOr⟩

/-- C7 (counterexample): the parser accepts `a == (b OR c)` and returns a
`Comparison` node whose right operand is a `BinaryLogic` subtree — the
operands of a `Comparison` are not always `Literal`/`Identifier` nodes. -/
theorem cmp_operand_can_be_logic_subtree :
    parseCondition "a == (b OR c)" =
      .ok (.cmp (.ident "a") .eq (.logic (.ident "b") .orOp (.ident "c"))) ∧
    atomicCmps (.cmp (.ident "a") .eq (.logic (.ident "b") .orOp (.ident "c")))
      = false := ⟨rfl, rfl⟩

/-- C7 (amended): in any condition the parser accepts, both operands of
every `Comparison` node are `Literal` or `Identifier` nodes unless written
as parenthesized sub-expressions: for a token stream containing no `(`,
every `Comparison` node of the resulting AST has `Literal`/`Identifier`
operands, never a nested comparison or boolean-logic subtree. -/
theorem parse_no_paren_atomic_comparisons (s : String) (toks : List Token)
    (ast : ASTNode) (ht : tokenize s = .ok toks)
    (hnp : ∀ t ∈ toks, t ≠ Token.lparen)
    (hp : parseCondition s = .ok ast) : atomicCmps ast = true := by
  have hpt : parseTokens toks = .ok ast := by
    have : parseCondition s = (tokenize s).bind parseTokens := rfl
    rw [this, ht] at hp
    exact hp
  have hbody : (do
      let nr ← parseOrExpr (4 * toks.length + 8) toks
      match nr.2 with
      | Token.eof :: _ => pure nr.1
      | _ => Except.error .synError : Except PyError ASTNode) = .ok ast := hpt
  cases hor : parseOrExpr (4 * toks.length + 8) toks with
  | error e => rw [hor] at hbody; cases hbody
  | ok nr =>
    rw [hor] at hbody
    have h := ((parser_no_paren (4 * toks.length + 8)).2.2.2.2.2) toks nr hor hnp
    simp only [ok_bind] at hbody
    cases hrest : nr.2 with
    | nil => rw [hrest] at hbody; cases hbody
    | cons t rest =>
      rw [hrest] at hbody
      cases t with
      | eof =>
        cases hbody
        exact h.1
      | _ => cases hbody

/-- C7 (witness): the amended theorem applied to the parenthesis-free
condition `a == 5`. -/
theorem parse_no_paren_atomic_comparisons_witness :
    tokenize "a == 5" = .ok [.ident "a", .eq, .num 5, .eof] ∧
    parseCondition "a == 5" = .ok (.cmp (.ident "a") .eq (.lit (.vNum 5))) ∧
    atomicCmps (.cmp (.ident "a") .eq (.lit (.vNum 5))) = true :=
  ⟨rfl, rfl, parse_no_paren_atomic_comparisons "a == 5"
      [.ident "a", .eq, .num 5, .eof] (.cmp (.ident "a") .eq (.lit (.vNum 5)))
      rfl (by decide) rfl⟩

/-- C8 (counterexample): `a == 5` parses, but wrapping its left operand in
parentheses does not: `(a) == 5` is rejected (the parser's `_comparison`
returns a parenthesized expression without looking for a following
comparison operator, so the trailing `== 5` is an "unexpected token"). -/
theorem paren_left_operand_fails :
    parseCondition "a == 5" = .ok (.cmp (.ident "a") .eq (.lit (.vNum 5))) ∧
    (parseCondition "(a) == 5").isOk = false := ⟨rfl, rfl⟩

/-- C8 (amended): parentheses are accepted around a whole condition at top
level and around the right operand of a comparison (both parse to the same
AST as the unparenthesized form), but wrapping the left operand of a
comparison in parentheses is rejected with a syntax error. -/
theorem paren_operand_positions (x : String) (t₂ op : Token) (n : ASTNode)
    (cop : CmpOp) (h₂ : atomNodeOfToken t₂ = some n)
    (hop : cmpOpOfToken op = some cop) :
    parseTokens [.ident x, op, .lparen, t₂, .rparen, .eof]
      = .ok (.cmp (.ident x) cop n) ∧
    parseTokens [.ident x, op, t₂, .eof] = .ok (.cmp (.ident x) cop n) ∧
    parseTokens [.lparen, .ident x, op, t₂, .rparen, .eof]
      = .ok (.cmp (.ident x) cop n) ∧
    (parseTokens [.lparen, .ident x, .rparen, op, t₂, .eof]).isOk = false := by
  cases t₂ <;> cases op <;>
    simp only [atomNodeOfToken, cmpOpOfToken, Option.some.injEq,
      reduceCtorEq] at h₂ hop <;>
    subst h₂ <;> subst hop <;>
    exact ⟨rfl, rfl, rfl, rfl⟩

/-- C8 (witness): the amended theorem applied to `a == 5`. -/
theorem paren_operand_positions_witness :
    parseTokens [.ident "a", .eq, .lparen, .num 5, .rparen, .eof]
      = .ok (.cmp (.ident "a") .eq (.lit (.vNum 5))) ∧
    (parseTokens [.lparen, .ident "a", .rparen, .eq, .num 5, .eof]).isOk = false :=
  ⟨(paren_operand_positions "a" (.num 5) .eq (.lit (.vNum 5)) .eq rfl rfl).1,
   (paren_operand_positions "a" (.num 5) .eq (.lit (.vNum 5)) .eq rfl rfl).2.2.2⟩

/-- C6 (witness): the amended theorem applied to `>` on the numbers `3`
and `5`. -/
theorem ordering_cmp_coercion_errors_witness :
    isOrderingOp .gt = true ∧
    applyCmp .gt (.vNum 3) (.vNum 5) = .ok (.vBool (ordCompare .gt 3 5)) :=
  ⟨by decide, (ordering_cmp_coercion_errors .gt (.vNum 3) (.vNum 5) (by decide)).2.1
      3 5 rfl rfl⟩

/-! ## Decision-engine machinery: the stable sort and the scan loop -/

/-- The test `matchesB` is the boolean of the first-true test of the scan loop. -/
theorem matchesB_true_iff (ctx : Ctx) (r : DecisionRule) :
    matchesB ctx r = true ↔ evaluate_condition r.condition ctx = .ok true := by
  constructor
  · intro hm
    cases he : evaluate_condition r.condition ctx with
    | error e => simp [matchesB, he] at hm
    | ok b =>
      cases b
      · simp [matchesB, he] at hm
      · rfl
  · intro h
    simp [matchesB, h]


/-- The scan loop returns the head of the filtered rule list. -/
theorem scanRules_eq_filter_head (ctx : Ctx) :
    ∀ l : List DecisionRule, scanRules ctx l = (l.filter (matchesB ctx)).head? := by
  intro l
  induction l with
  | nil => rfl
  | cons r rs ih =>
    cases he : evaluate_condition r.condition ctx with
    | error e =>
      have hm : matchesB ctx r = false := by simp [matchesB, he]
      simp [scanRules, he, List.filter_cons, hm, ih]
    | ok b =>
      cases b
      · have hm : matchesB ctx r = false := by simp [matchesB, he]
        simp [scanRules, he, List.filter_cons, hm, ih]
      · have hm : matchesB ctx r = true := by simp [matchesB, he]
        simp [scanRules, he, List.filter_cons, hm]

theorem lexLe_refl (a : Nat × DecisionRule) : lexLe a a := Or.inr ⟨rfl, le_refl _⟩

theorem lexLe_trans {a b c : Nat × DecisionRule} (h₁ : lexLe a b) (h₂ : lexLe b c) :
    lexLe a c := by
  rcases h₁ with h₁ | ⟨e₁, i₁⟩ <;> rcases h₂ with h₂ | ⟨e₂, i₂⟩
  · exact Or.inl (h₁.trans h₂)
  · exact Or.inl (e₂ ▸ h₁)
  · exact Or.inl (e₁ ▸ h₂)
  · exact Or.inr ⟨e₁.trans e₂, i₁.trans i₂⟩

theorem lexLe_prio {a b : Nat × DecisionRule} (h : lexLe a b) :
    a.2.priority ≤ b.2.priority := by
  rcases h with h | ⟨e, _⟩
  · exact h.le
  · exact e.le

theorem insertPair_perm (p : Nat × DecisionRule) :
    ∀ l, List.Perm (insertPair p l) (p :: l) := by
  intro l
  induction l with
  | nil => exact List.Perm.refl _
  | cons x xs ih =>
    unfold insertPair
    split
    · exact (ih.cons x).trans (List.Perm.swap p x xs)
    · exact List.Perm.refl _

theorem sortPairs_perm : ∀ l, List.Perm (sortPairs l) l := by
  intro l
  induction l with
  | nil => exact List.Perm.refl _
  | cons p ps ih =>
    exact (insertPair_perm p (sortPairs ps)).trans (ih.cons p)

theorem insertPair_pairwise (p : Nat × DecisionRule) :
    ∀ l, l.Pairwise lexLe → (∀ x ∈ l, p.1 < x.1) →
      (insertPair p l).Pairwise lexLe := by
  intro l
  induction l with
  | nil =>
    intro _ _
    simp [insertPair]
  | cons x xs ih =>
    intro hl hidx
    obtain ⟨hx, hxs⟩ := List.pairwise_cons.mp hl
    unfold insertPair
    split
    · next hlt =>
      refine List.Pairwise.cons ?_ (ih hxs fun y hy => hidx y (List.mem_cons_of_mem _ hy))
      intro y hy
      rcases List.mem_cons.mp ((insertPair_perm p xs).subset hy) with rfl | hyxs
      · exact Or.inl hlt
      · exact hx y hyxs
    · next hge =>
      have hpx : lexLe p x := by
        rcases lt_or_eq_of_le (not_lt.mp hge) with h | h
        · exact Or.inl h
        · exact Or.inr ⟨h, (hidx x (List.mem_cons_self _ _)).le⟩
      refine List.Pairwise.cons ?_ hl
      intro y hy
      rcases List.mem_cons.mp hy with rfl | hyxs
      · exact hpx
      · exact lexLe_trans hpx (hx y hyxs)

theorem sortPairs_pairwise :
    ∀ l : List (Nat × DecisionRule), (l.Pairwise fun a b => a.1 < b.1) →
      (sortPairs l).Pairwise lexLe := by
  intro l
  induction l with
  | nil =>
    intro _
    exact List.Pairwise.nil
  | cons p ps ih =>
    intro h
    obtain ⟨hp, hps⟩ := List.pairwise_cons.mp h
    exact insertPair_pairwise p _ (ih hps)
      (fun x hx => hp x ((sortPairs_perm ps).subset hx))

theorem mem_enumF {α : Type} :
    ∀ (l : List α) (i : Nat) (p : Nat × α),
      p ∈ enumF i l ↔ ∃ k, p.1 = i + k ∧ l[k]? = some p.2 := by
  intro l
  induction l with
  | nil => simp [enumF]
  | cons y ys ih =>
    intro i p
    constructor
    · intro hp
      rcases List.mem_cons.mp hp with rfl | hmem
      · exact ⟨0, rfl, by simp⟩
      · obtain ⟨k, hk, hget⟩ := (ih (i + 1) p).mp hmem
        exact ⟨k + 1, by omega, by simpa using hget⟩
    · rintro ⟨k, hk, hget⟩
      cases k with
      | zero =>
        simp only [List.getElem?_cons_zero, Option.some.injEq] at hget
        have : p = (i, y) := by
          obtain ⟨p1, p2⟩ := p
          simp only at hk hget
          simp [hk, ← hget]
        rw [this]
        exact List.mem_cons_self _ _
      | succ k =>
        refine List.mem_cons_of_mem _ ((ih (i + 1) p).mpr ⟨k, by omega, by simpa using hget⟩)

theorem enumF_fst_bounds {α : Type} :
    ∀ (l : List α) (i : Nat) (p : Nat × α), p ∈ enumF i l →
      i ≤ p.1 ∧ p.1 < i + l.length := by
  intro l
  induction l with
  | nil => simp [enumF]
  | cons y ys ih =>
    intro i p hp
    rcases List.mem_cons.mp hp with rfl | hmem
    · exact ⟨le_refl i, by show i < i + (y :: ys).length; simp⟩
    · obtain ⟨h₁, h₂⟩ := ih (i + 1) p hmem
      exact ⟨by omega, by simp only [List.length_cons]; omega⟩

theorem enumF_pairwise_fst {α : Type} :
    ∀ (l : List α) (i : Nat), (enumF i l).Pairwise fun a b => a.1 < b.1 := by
  intro l
  induction l with
  | nil =>
    intro i
    exact List.Pairwise.nil
  | cons y ys ih =>
    intro i
    refine List.Pairwise.cons ?_ (ih (i + 1))
    intro q hq
    have := (enumF_fst_bounds ys (i + 1) q hq).1
    simp only
    omega

/-- The head of a sorted list is a minimum of any list it permutes to. -/
theorem head_sorted_perm_min {s t : List (Nat × DecisionRule)}
    (hs : s.Pairwise lexLe) (hperm : List.Perm s t) :
    (∀ p, s.head? = some p → p ∈ t ∧ ∀ q ∈ t, lexLe p q) ∧
    (s.head? = none → t = []) := by
  cases s with
  | nil =>
    refine ⟨fun p hp => ?_, fun _ => hperm.symm.eq_nil⟩
    cases hp
  | cons p s₁ =>
    refine ⟨?_, fun h => by cases h⟩
    intro p' hp'
    have hpp : p' = p := by
      simp only [List.head?_cons, Option.some.injEq] at hp'
      exact hp'.symm
    subst hpp
    refine ⟨hperm.subset (List.mem_cons_self _ _), ?_⟩
    intro q hq
    rcases List.mem_cons.mp (hperm.symm.subset hq) with rfl | hq₁
    · exact lexLe_refl _
    · exact (List.pairwise_cons.mp hs).1 q hq₁

/-- The scan of the stably sorted rules, as the head of the filtered,
index-tagged sorted list. -/
theorem scan_pySorted_eq (ctx : Ctx) (rules : List DecisionRule) :
    scanRules ctx (pySorted rules) =
      (((sortPairs (enumF 0 rules)).filter fun p => matchesB ctx p.2).head?).map
        (·.2) := by
  rw [scanRules_eq_filter_head, show pySorted rules
      = (sortPairs (enumF 0 rules)).map (·.2) from rfl,
    List.filter_map, List.head?_map]
  rfl

/-- C1: when at least one rule's condition evaluates to `True`,
`evaluate_policy` returns the `Decision` of a rule that matches, occurs in
the original rule list, and is minimal among all matching rules for the
order "lower priority value first, ties broken by earlier original
position"; rules after that first match contribute nothing. -/
theorem evaluate_policy_picks_min (cl : PartClassification) (df : DefectInspection)
    (pol : ExecutablePolicy)
    (hex : ∃ r ∈ pol.decision_rules,
        evaluate_condition r.condition (mkContext cl df) = .ok true) :
    ∃ (i : Nat) (r : DecisionRule), pol.decision_rules[i]? = some r ∧
      evaluate_condition r.condition (mkContext cl df) = .ok true ∧
      evaluate_policy cl df pol = decisionOfRule cl r ∧
      ∀ (j : Nat) (r' : DecisionRule), pol.decision_rules[j]? = some r' →
        evaluate_condition r'.condition (mkContext cl df) = .ok true →
        (r.priority < r'.priority ∨ (r.priority = r'.priority ∧ i ≤ j)) := by
  have hFsorted : ((sortPairs (enumF 0 pol.decision_rules)).filter
      fun p => matchesB (mkContext cl df) p.2).Pairwise lexLe :=
    (sortPairs_pairwise _ (enumF_pairwise_fst pol.decision_rules 0)).filter _
  have hFperm : List.Perm
      ((sortPairs (enumF 0 pol.decision_rules)).filter
        fun p => matchesB (mkContext cl df) p.2)
      ((enumF 0 pol.decision_rules).filter
        fun p => matchesB (mkContext cl df) p.2) :=
    (sortPairs_perm _).filter _
  obtain ⟨r0, hr0mem, hr0⟩ := hex
  obtain ⟨i0, hi0⟩ := List.mem_iff_getElem?.mp hr0mem
  have h0T : (i0, r0) ∈ (enumF 0 pol.decision_rules).filter
      (fun p => matchesB (mkContext cl df) p.2) :=
    List.mem_filter.mpr ⟨(mem_enumF _ 0 (i0, r0)).mpr ⟨i0, by omega, hi0⟩,
      (matchesB_true_iff _ _).mpr hr0⟩
  cases hhead : ((sortPairs (enumF 0 pol.decision_rules)).filter
      fun p => matchesB (mkContext cl df) p.2).head? with
  | none =>
    have hnil := (head_sorted_perm_min hFsorted hFperm).2 hhead
    rw [hnil] at h0T
    cases h0T
  | some m =>
    obtain ⟨hmT, hmin⟩ := (head_sorted_perm_min hFsorted hFperm).1 m hhead
    obtain ⟨hmE, hmB⟩ := List.mem_filter.mp hmT
    obtain ⟨k, hk, hkget⟩ := (mem_enumF _ 0 m).mp hmE
    have hkm : k = m.1 := by omega
    subst hkm
    refine ⟨m.1, m.2, hkget, (matchesB_true_iff _ _).mp hmB, ?_, ?_⟩
    · show evaluate_policy cl df pol = decisionOfRule cl m.2
      unfold evaluate_policy
      rw [scan_pySorted_eq, hhead]
      rfl
    · intro j r' hj hr'
      have hjT : (j, r') ∈ (enumF 0 pol.decision_rules).filter
          (fun p => matchesB (mkContext cl df) p.2) :=
        List.mem_filter.mpr ⟨(mem_enumF _ 0 (j, r')).mpr ⟨j, by omega, hj⟩,
          (matchesB_true_iff _ _).mpr hr'⟩
      exact hmin (j, r') hjT

/-- C1 (witness): the theorem applied to a one-rule policy whose rule
condition is the literal `true`. -/
theorem evaluate_policy_picks_min_witness :
    ∃ (i : Nat) (r : DecisionRule), sampleMatchPolicy.decision_rules[i]? = some r ∧
      evaluate_condition r.condition (mkContext {} {}) = .ok true ∧
      evaluate_policy {} {} sampleMatchPolicy = decisionOfRule {} r ∧
      ∀ (j : Nat) (r' : DecisionRule), sampleMatchPolicy.decision_rules[j]? = some r' →
        evaluate_condition r'.condition (mkContext {} {}) = .ok true →
        (r.priority < r'.priority ∨ (r.priority = r'.priority ∧ i ≤ j)) :=
  evaluate_policy_picks_min {} {} sampleMatchPolicy
    ⟨sampleTrueRule, List.mem_cons_self _ _, rfl⟩

/-- C2: when no rule's condition evaluates to `True` — in particular for
an empty rule list — `evaluate_policy` returns the one fallback `Decision`
carrying the policy's configured default action and default target bin,
with rule id `"DEFAULT"`. -/
theorem evaluate_policy_default_when_no_match (cl : PartClassification)
    (df : DefectInspection) (pol : ExecutablePolicy)
    (hno : ∀ r ∈ pol.decision_rules,
        ¬ evaluate_condition r.condition (mkContext cl df) = .ok true) :
    evaluate_policy cl df pol =
      { target_bin := pol.default_action.target_bin
        action := pol.default_action.action
        rule_id := "DEFAULT"
        rule_condition := "no_rule_matched"
        source := none
        confidence := cl.confidence
        requires_operator := false } := by
  have hT : (enumF 0 pol.decision_rules).filter
      (fun p => matchesB (mkContext cl df) p.2) = [] := by
    rw [List.filter_eq_nil_iff]
    intro p hp
    obtain ⟨k, hk, hget⟩ := (mem_enumF _ 0 p).mp hp
    intro hmB
    exact hno p.2 (List.getElem?_mem hget) ((matchesB_true_iff _ _).mp hmB)
  have hF : (sortPairs (enumF 0 pol.decision_rules)).filter
      (fun p => matchesB (mkContext cl df) p.2) = [] := by
    have := (sortPairs_perm (enumF 0 pol.decision_rules)).filter
      (fun p => matchesB (mkContext cl df) p.2)
    rw [hT] at this
    exact this.eq_nil
  unfold evaluate_policy
  rw [scan_pySorted_eq, hF]
  rfl

/-! ## C3 machinery: removing an erroring rule does not change the scan -/

theorem matchesB_false_of_error {ctx : Ctx} {r : DecisionRule} {e : PyError}
    (h : evaluate_condition r.condition ctx = .error e) :
    matchesB ctx r = false := by
  simp [matchesB, h]

theorem enumF_append {α : Type} (l₂ : List α) :
    ∀ (l₁ : List α) (i : Nat),
      enumF i (l₁ ++ l₂) = enumF i l₁ ++ enumF (i + l₁.length) l₂ := by
  intro l₁
  induction l₁ with
  | nil =>
    intro i
    simp [enumF]
  | cons x xs ih =>
    intro i
    show (i, x) :: enumF (i + 1) (xs ++ l₂) = ((i, x) :: enumF (i + 1) xs) ++ _
    rw [List.cons_append, ih (i + 1)]
    have harith : i + 1 + xs.length = i + (x :: xs).length := by
      simp only [List.length_cons]
      omega
    rw [harith]

theorem enumF_map_sub_one {α : Type} :
    ∀ (l : List α) (i : Nat),
      (enumF (i + 1) l).map (fun p => (p.1 - 1, p.2)) = enumF i l := by
  intro l
  induction l with
  | nil => intro i; rfl
  | cons x xs ih =>
    intro i
    simp [enumF, ih (i + 1)]

theorem shiftPair_snd (k : Nat) (p : Nat × DecisionRule) :
    (shiftPair k p).2 = p.2 := by
  unfold shiftPair
  split <;> rfl

theorem filter_map_shift (ctx : Ctx) (k : Nat) :
    ∀ l : List (Nat × DecisionRule),
      ((l.filter fun p => matchesB ctx p.2).map (shiftPair k))
        = (l.map (shiftPair k)).filter fun p => matchesB ctx p.2 := by
  intro l
  induction l with
  | nil => rfl
  | cons p ps ih =>
    cases hq : matchesB ctx p.2 with
    | true => simp [List.filter_cons, List.map_cons, hq, shiftPair_snd, ih]
    | false => simp [List.filter_cons, List.map_cons, hq, shiftPair_snd, ih]

theorem shiftPair_mono {k : Nat} {p p' : Nat × DecisionRule}
    (h : lexLe p p') :
    lexLe (shiftPair k p) (shiftPair k p') := by
  rcases h with h | ⟨e, hi⟩
  · exact Or.inl (by rw [shiftPair_snd, shiftPair_snd]; exact h)
  · refine Or.inr ⟨by rw [shiftPair_snd, shiftPair_snd]; exact e, ?_⟩
    by_cases c1 : p.1 ≤ k <;> by_cases c2 : p'.1 ≤ k <;>
      simp [shiftPair, c1, c2] <;> omega

theorem lexLe_antisym_parts {p q : Nat × DecisionRule}
    (h₁ : lexLe p q) (h₂ : lexLe q p) :
    p.1 = q.1 ∧ p.2.priority = q.2.priority := by
  rcases h₁ with h₁ | ⟨e₁, i₁⟩ <;> rcases h₂ with h₂ | ⟨e₂, i₂⟩
  · exact absurd (h₁.trans h₂) (lt_irrefl _)
  · rw [e₂] at h₁
    exact absurd h₁ (lt_irrefl _)
  · rw [e₁] at h₂
    exact absurd h₂ (lt_irrefl _)
  · exact ⟨le_antisymm i₁ i₂, e₁⟩

theorem enumF_snd_unique {α : Type} {l : List α} {p q : Nat × α}
    (hp : p ∈ enumF 0 l) (hq : q ∈ enumF 0 l) (hidx : p.1 = q.1) : p.2 = q.2 := by
  obtain ⟨kp, hkp, hgp⟩ := (mem_enumF l 0 p).mp hp
  obtain ⟨kq, hkq, hgq⟩ := (mem_enumF l 0 q).mp hq
  have hk : kp = kq := by omega
  rw [hk, hgq] at hgp
  exact (Option.some.inj hgp).symm

theorem removed_idx_ne (ctx : Ctx) (l₁ l₂ : List DecisionRule) (bad : DecisionRule)
    (hbad : matchesB ctx bad = false) :
    ∀ p ∈ (enumF 0 (l₁ ++ bad :: l₂)).filter (fun p => matchesB ctx p.2),
      p.1 ≠ l₁.length := by
  intro p hp hk
  obtain ⟨hpE, hpB⟩ := List.mem_filter.mp hp
  obtain ⟨k', hk', hget⟩ := (mem_enumF _ 0 p).mp hpE
  have hk'' : k' = l₁.length := by omega
  rw [hk''] at hget
  have hbadget : (l₁ ++ bad :: l₂)[l₁.length]? = some bad := by
    rw [List.getElem?_append_right (le_refl _)]
    simp
  rw [hbadget] at hget
  have hpb : p.2 = bad := (Option.some.inj hget).symm
  rw [hpb, hbad] at hpB
  cases hpB

theorem filtered_decomp_with (ctx : Ctx) (l₁ l₂ : List DecisionRule)
    (bad : DecisionRule) (hbad : matchesB ctx bad = false) :
    (enumF 0 (l₁ ++ bad :: l₂)).filter (fun p => matchesB ctx p.2)
      = (enumF 0 l₁).filter (fun p => matchesB ctx p.2)
        ++ (enumF (l₁.length + 1) l₂).filter (fun p => matchesB ctx p.2) := by
  rw [enumF_append (bad :: l₂) l₁ 0]
  simp only [Nat.zero_add]
  rw [show enumF l₁.length (bad :: l₂)
      = (l₁.length, bad) :: enumF (l₁.length + 1) l₂ from rfl]
  rw [List.filter_append, List.filter_cons_of_neg (by simp [hbad])]

theorem filtered_decomp_without (ctx : Ctx) (l₁ l₂ : List DecisionRule) :
    (enumF 0 (l₁ ++ l₂)).filter (fun p => matchesB ctx p.2)
      = (enumF 0 l₁).filter (fun p => matchesB ctx p.2)
        ++ (enumF l₁.length l₂).filter (fun p => matchesB ctx p.2) := by
  rw [enumF_append l₂ l₁ 0]
  simp only [Nat.zero_add]
  rw [List.filter_append]

theorem filtered_map_shift_eq (ctx : Ctx) (l₁ l₂ : List DecisionRule)
    (bad : DecisionRule) (hbad : matchesB ctx bad = false) :
    ((enumF 0 (l₁ ++ bad :: l₂)).filter fun p => matchesB ctx p.2).map
        (shiftPair l₁.length)
      = (enumF 0 (l₁ ++ l₂)).filter fun p => matchesB ctx p.2 := by
  rw [filtered_decomp_with ctx l₁ l₂ bad hbad, filtered_decomp_without ctx l₁ l₂,
    List.map_append]
  congr 1
  · have h : ∀ p ∈ (enumF 0 l₁).filter (fun p => matchesB ctx p.2),
        shiftPair l₁.length p = p := by
      intro p hp
      have hb := (enumF_fst_bounds l₁ 0 p (List.mem_of_mem_filter hp)).2
      unfold shiftPair
      rw [if_pos (by omega)]
    rw [List.map_congr_left h, List.map_id']
  · have hm : (enumF (l₁.length + 1) l₂).map (shiftPair l₁.length)
        = enumF l₁.length l₂ := by
      have h : ∀ p ∈ enumF (l₁.length + 1) l₂,
          shiftPair l₁.length p = (p.1 - 1, p.2) := by
        intro p hp
        have hb := (enumF_fst_bounds l₂ (l₁.length + 1) p hp).1
        unfold shiftPair
        rw [if_neg (by omega)]
      rw [List.map_congr_left h, enumF_map_sub_one]
    rw [filter_map_shift ctx l₁.length (enumF (l₁.length + 1) l₂), hm]

/-- C3: a rule whose condition raises (lex, parse or evaluation error) is
skipped transparently: `evaluate_policy` on a rule list containing such a
rule returns the same `Decision` as on the list with that rule removed —
rules after the malformed one still participate, and no per-rule error
escapes `evaluate_policy` (which is a total function into `Decision`). -/
theorem evaluate_policy_skips_erroring_rule (cl : PartClassification)
    (df : DefectInspection) (pol : ExecutablePolicy) (l₁ l₂ : List DecisionRule)
    (bad : DecisionRule) (e : PyError)
    (hrules : pol.decision_rules = l₁ ++ bad :: l₂)
    (herr : evaluate_condition bad.condition (mkContext cl df) = .error e) :
    evaluate_policy cl df pol =
      evaluate_policy cl df { pol with decision_rules := l₁ ++ l₂ } := by
  have hbad := matchesB_false_of_error herr
  have hscan : scanRules (mkContext cl df) (pySorted (l₁ ++ bad :: l₂))
      = scanRules (mkContext cl df) (pySorted (l₁ ++ l₂)) := by
    rw [scan_pySorted_eq, scan_pySorted_eq]
    have h₁sorted : ((sortPairs (enumF 0 (l₁ ++ bad :: l₂))).filter
        fun p => matchesB (mkContext cl df) p.2).Pairwise lexLe :=
      (sortPairs_pairwise _ (enumF_pairwise_fst _ 0)).filter _
    have h₁perm := (sortPairs_perm (enumF 0 (l₁ ++ bad :: l₂))).filter
      (fun p => matchesB (mkContext cl df) p.2)
    have h₂sorted : ((sortPairs (enumF 0 (l₁ ++ l₂))).filter
        fun p => matchesB (mkContext cl df) p.2).Pairwise lexLe :=
      (sortPairs_pairwise _ (enumF_pairwise_fst _ 0)).filter _
    have h₂perm := (sortPairs_perm (enumF 0 (l₁ ++ l₂))).filter
      (fun p => matchesB (mkContext cl df) p.2)
    have hT := filtered_map_shift_eq (mkContext cl df) l₁ l₂ bad hbad
    have hne := removed_idx_ne (mkContext cl df) l₁ l₂ bad hbad
    cases hh₁ : ((sortPairs (enumF 0 (l₁ ++ bad :: l₂))).filter
        fun p => matchesB (mkContext cl df) p.2).head? with
    | none =>
      have hT₁ : (enumF 0 (l₁ ++ bad :: l₂)).filter
          (fun p => matchesB (mkContext cl df) p.2) = [] :=
        (head_sorted_perm_min h₁sorted h₁perm).2 hh₁
      have hT₂ : (enumF 0 (l₁ ++ l₂)).filter
          (fun p => matchesB (mkContext cl df) p.2) = [] := by
        rw [← hT, hT₁]
        rfl
      have hF₂ : ((sortPairs (enumF 0 (l₁ ++ l₂))).filter
          fun p => matchesB (mkContext cl df) p.2) = [] := by
        rw [hT₂] at h₂perm
        exact h₂perm.eq_nil
      rw [hF₂]
      rfl
    | some m =>
      obtain ⟨hmT₁, hmin₁⟩ := (head_sorted_perm_min h₁sorted h₁perm).1 m hh₁
      have hsmT₂ : shiftPair l₁.length m ∈ (enumF 0 (l₁ ++ l₂)).filter
          (fun p => matchesB (mkContext cl df) p.2) := by
        rw [← hT]
        exact List.mem_map_of_mem _ hmT₁
      cases hh₂ : ((sortPairs (enumF 0 (l₁ ++ l₂))).filter
          fun p => matchesB (mkContext cl df) p.2).head? with
      | none =>
        have hT₂ := (head_sorted_perm_min h₂sorted h₂perm).2 hh₂
        rw [hT₂] at hsmT₂
        cases hsmT₂
      | some m₂ =>
        obtain ⟨hmT₂, hmin₂⟩ := (head_sorted_perm_min h₂sorted h₂perm).1 m₂ hh₂
        rw [← hT] at hmT₂
        obtain ⟨m', hm'T₁, hm'⟩ := List.mem_map.mp hmT₂
        have hle₁ : lexLe (shiftPair l₁.length m) m₂ := by
          rw [← hm']
          exact shiftPair_mono (hmin₁ m' hm'T₁)
        have hle₂ : lexLe m₂ (shiftPair l₁.length m) := hmin₂ _ hsmT₂
        obtain ⟨hidx, hpr⟩ := lexLe_antisym_parts hle₂ hle₁
        have hm₂E : m₂ ∈ enumF 0 (l₁ ++ l₂) := by
          rw [hT] at hmT₂
          exact List.mem_of_mem_filter hmT₂
        have hsmE : shiftPair l₁.length m ∈ enumF 0 (l₁ ++ l₂) :=
          List.mem_of_mem_filter hsmT₂
        have hsnd : m₂.2 = (shiftPair l₁.length m).2 :=
          enumF_snd_unique hm₂E hsmE hidx
        simp [hsnd, shiftPair_snd]
  unfold evaluate_policy
  rw [hrules, hscan]
  cases scanRules (mkContext cl df) (pySorted (l₁ ++ l₂)) <;> rfl

/-- C3 (witness): the theorem applied to a two-rule policy whose first
rule has the malformed condition `size_mm >>` (spec scenario D); the
malformed rule is skipped and the decision equals that of the policy
containing only the valid rule. -/
theorem evaluate_policy_skips_erroring_rule_witness :
    evaluate_condition "size_mm >>" (mkContext {} {}) = .error .synError ∧
    evaluate_policy {} {}
        { decision_rules :=
            [{ id := "B", priority := 0, condition := "size_mm >>",
               target_bin := "X" }, sampleTrueRule] } =
      evaluate_policy {} {} { decision_rules := [sampleTrueRule] } :=
  ⟨rfl, evaluate_policy_skips_erroring_rule {} {} _ []
      [sampleTrueRule]
      { id := "B", priority := 0, condition := "size_mm >>", target_bin := "X" }
      .synError rfl rfl⟩

/-- C2 (witness): the theorem applied to the empty policy (no rules),
whose default action is `MANUAL_REVIEW` into `REVIEW_BIN`. -/
theorem evaluate_policy_default_when_no_match_witness :
    evaluate_policy {} {} {} =
      { target_bin := "REVIEW_BIN"
        action := "MANUAL_REVIEW"
        rule_id := "DEFAULT"
        rule_condition := "no_rule_matched"
        source := none
        confidence := 0
        requires_operator := false } :=
  evaluate_policy_default_when_no_match {} {} {} (by intro r hr; cases hr)

/-! ## Policy-diff machinery -/

theorem lookup_mem {α : Type} :
    ∀ (l : List (String × α)) (k : String) (v : α),
      l.lookup k = some v → (k, v) ∈ l := by
  intro l
  induction l with
  | nil => intro k v h; cases h
  | cons e es ih =>
    intro k v h
    obtain ⟨k', v'⟩ := e
    cases hbeq : k == k' with
    | true =>
      simp only [List.lookup, hbeq] at h
      rw [eq_of_beq hbeq, Option.some.inj h]
      exact List.mem_cons_self _ _
    | false =>
      simp only [List.lookup, hbeq] at h
      exact List.mem_cons_of_mem _ (ih k v h)

theorem mem_lookup_of_nodup {α : Type} :
    ∀ (l : List (String × α)), (l.map (·.1)).Nodup →
      ∀ (k : String) (v : α), (k, v) ∈ l → l.lookup k = some v := by
  intro l
  induction l with
  | nil => intro _ k v h; cases h
  | cons e es ih =>
    intro hnodup k v hmem
    obtain ⟨k', v'⟩ := e
    rw [List.map_cons] at hnodup
    obtain ⟨hk', hes⟩ := List.nodup_cons.mp hnodup
    rcases List.mem_cons.mp hmem with heq | hmem'
    · have h1 : k = k' := congrArg Prod.fst heq
      have h2 : v = v' := congrArg Prod.snd heq
      subst h1
      subst h2
      simp [List.lookup]
    · cases hbeq : k == k' with
      | true =>
        exact absurd (List.mem_map.mpr ⟨(k, v), hmem', eq_of_beq hbeq⟩) hk'
      | false =>
        simp only [List.lookup, hbeq]
        exact ih hes k v hmem'

theorem dictInsert_keys {α : Type} (d : List (String × α)) (k : String) (v : α) :
    (dictInsert d k v).map (·.1) =
      if d.any (fun p => p.1 == k) then d.map (·.1) else d.map (·.1) ++ [k] := by
  unfold dictInsert
  split
  · next h =>
    rw [List.map_map]
    refine List.map_congr_left ?_
    intro p _
    dsimp
    split <;> rfl
  · next h =>
    simp

theorem dictInsert_keys_nodup {α : Type} (d : List (String × α)) (k : String)
    (v : α) (h : (d.map (·.1)).Nodup) : ((dictInsert d k v).map (·.1)).Nodup := by
  rw [dictInsert_keys]
  split
  · exact h
  · next hany =>
    have hk : k ∉ d.map (·.1) := by
      intro hmem
      obtain ⟨p, hp, hpk⟩ := List.mem_map.mp hmem
      exact hany (List.any_eq_true.mpr ⟨p, hp, by simp [hpk]⟩)
    rw [List.nodup_append]
    exact ⟨h, List.nodup_singleton k, by
      intro a ha hb
      rw [List.mem_singleton.mp hb] at ha
      exact hk ha⟩

theorem dictOf_keys_nodup {α : Type} (key : α → String) (l : List α) :
    ((dictOf key l).map (·.1)).Nodup := by
  suffices h : ∀ d : List (String × α), (d.map (·.1)).Nodup →
      ((l.foldl (fun d x => dictInsert d (key x) x) d).map (·.1)).Nodup by
    exact h [] (by simp)
  induction l with
  | nil => intro d hd; exact hd
  | cons x xs ih =>
    intro d hd
    exact ih _ (dictInsert_keys_nodup d (key x) x hd)

theorem diffForRule_rule_id (old_rules : List (String × DecisionRule))
    (e : String × DecisionRule) :
    ∀ d ∈ diffForRule old_rules e, d.rule_id = e.1 := by
  intro d hd
  unfold diffForRule at hd
  cases hl : old_rules.lookup e.1 with
  | none =>
    rw [hl] at hd
    replace hd : d ∈ [addedDiff e.1 e.2] := hd
    rw [List.mem_singleton.mp hd]
    rfl
  | some o =>
    rw [hl] at hd
    replace hd : d ∈ (if o.condition ≠ e.2.condition then [condModifiedDiff e.1 o e.2]
        else if o.target_bin ≠ e.2.target_bin then [targetModifiedDiff e.1 o e.2]
        else []) := hd
    by_cases hc : o.condition ≠ e.2.condition
    · rw [if_pos hc] at hd
      rw [List.mem_singleton.mp hd]
      rfl
    · rw [if_neg hc] at hd
      by_cases ht : o.target_bin ≠ e.2.target_bin
      · rw [if_pos ht] at hd
        rw [List.mem_singleton.mp hd]
        rfl
      · rw [if_neg ht] at hd
        cases hd

theorem diffForRule_not_threshold (old_rules : List (String × DecisionRule))
    (e : String × DecisionRule) :
    ∀ d ∈ diffForRule old_rules e, d.diff_type ≠ "THRESHOLD_CHANGED" := by
  intro d hd
  unfold diffForRule at hd
  cases hl : old_rules.lookup e.1 with
  | none =>
    rw [hl] at hd
    replace hd : d ∈ [addedDiff e.1 e.2] := hd
    rw [List.mem_singleton.mp hd]
    show "RULE_ADDED" ≠ "THRESHOLD_CHANGED"
    decide
  | some o =>
    rw [hl] at hd
    replace hd : d ∈ (if o.condition ≠ e.2.condition then [condModifiedDiff e.1 o e.2]
        else if o.target_bin ≠ e.2.target_bin then [targetModifiedDiff e.1 o e.2]
        else []) := hd
    by_cases hc : o.condition ≠ e.2.condition
    · rw [if_pos hc] at hd
      rw [List.mem_singleton.mp hd]
      show "RULE_MODIFIED" ≠ "THRESHOLD_CHANGED"
      decide
    · rw [if_neg hc] at hd
      by_cases ht : o.target_bin ≠ e.2.target_bin
      · rw [if_pos ht] at hd
        rw [List.mem_singleton.mp hd]
        show "RULE_MODIFIED" ≠ "THRESHOLD_CHANGED"
        decide
      · rw [if_neg ht] at hd
        cases hd

/-- The three loops of `diff_policies`, as one list equation. -/
theorem diff_policies_eq (oldP newP : ExecutablePolicy) :
    diff_policies oldP newP =
      ((dictOf (·.id) newP.decision_rules).flatMap
        (diffForRule (dictOf (·.id) oldP.decision_rules)))
      ++ (((dictOf (·.id) oldP.decision_rules).filter
            (fun e => ((dictOf (·.id) newP.decision_rules).lookup e.1).isNone)).map
          (fun e => removedDiff e.1 e.2))
      ++ ((dictOf (·.parameter) newP.safety_constraints).filterMap (fun e =>
          match (dictOf (·.parameter) oldP.safety_constraints).lookup e.1 with
          | some oc =>
            if oc.value ≠ e.2.value then some (thresholdDiff e.1 oc e.2) else none
          | none => none)) := rfl

/-- C9 (counterexample): when both the condition and the target bin of the
rule `r1` change, `diff_policies` reports a single `RULE_MODIFIED` diff —
the condition one — not two (the target comparison sits in an `elif`). -/
theorem both_changed_single_diff :
    (diff_policies sampleOldPolicy sampleNewPolicy).map
        (fun d => (d.diff_type, d.rule_id, d.old_value, d.new_value))
      = [("RULE_MODIFIED", "r1", some "size_mm > 50", some "size_mm > 60")] ∧
    sampleOldRule.condition ≠ sampleNewRule.condition ∧
    sampleOldRule.target_bin ≠ sampleNewRule.target_bin := by
  refine ⟨rfl, ?_, ?_⟩ <;> decide

/-- C9 (amended): for a rule id present in both policies whose condition
and target bin both changed, `diff_policies` reports exactly one
`RULE_MODIFIED` diff for that id, and it is the condition-change diff
(old/new condition as values); the target-change diff is suppressed. -/
theorem diff_policies_both_changed (oldP newP : ExecutablePolicy) (rid : String)
    (orule nrule : DecisionRule)
    (ho : (dictOf (·.id) oldP.decision_rules).lookup rid = some orule)
    (hn : (dictOf (·.id) newP.decision_rules).lookup rid = some nrule)
    (hc : orule.condition ≠ nrule.condition)
    (ht : orule.target_bin ≠ nrule.target_bin) :
    (diff_policies oldP newP).filter
        (fun d => d.rule_id == rid && d.diff_type == "RULE_MODIFIED")
      = [condModifiedDiff rid orule nrule] := by
  rw [diff_policies_eq, List.filter_append, List.filter_append]
  have hrem : (((dictOf (·.id) oldP.decision_rules).filter
        (fun e => ((dictOf (·.id) newP.decision_rules).lookup e.1).isNone)).map
      (fun e => removedDiff e.1 e.2)).filter
        (fun d => d.rule_id == rid && d.diff_type == "RULE_MODIFIED") = [] := by
    rw [List.filter_eq_nil_iff]
    intro d hd
    obtain ⟨e, _, hde⟩ := List.mem_map.mp hd
    rw [← hde]
    simp [removedDiff]
  have hthr : ((dictOf (·.parameter) newP.safety_constraints).filterMap (fun e =>
        match (dictOf (·.parameter) oldP.safety_constraints).lookup e.1 with
        | some oc =>
          if oc.value ≠ e.2.value then some (thresholdDiff e.1 oc e.2) else none
        | none => none)).filter
        (fun d => d.rule_id == rid && d.diff_type == "RULE_MODIFIED") = [] := by
    rw [List.filter_eq_nil_iff]
    intro d hd
    obtain ⟨e, _, hde⟩ := List.mem_filterMap.mp hd
    cases hl : (dictOf (·.parameter) oldP.safety_constraints).lookup e.1 with
    | none =>
      rw [hl] at hde
      cases hde
    | some oc =>
      rw [hl] at hde
      replace hde : (if oc.value ≠ e.2.value then some (thresholdDiff e.1 oc e.2)
          else none) = some d := hde
      by_cases hv : oc.value ≠ e.2.value
      · rw [if_pos hv] at hde
        rw [← Option.some.inj hde]
        simp [thresholdDiff]
      · rw [if_neg hv] at hde
        cases hde
  rw [hrem, hthr]
  have hmain : ∀ l : List (String × DecisionRule), (l.map (·.1)).Nodup →
      l.lookup rid = some nrule →
      (l.flatMap (diffForRule (dictOf (·.id) oldP.decision_rules))).filter
          (fun d => d.rule_id == rid && d.diff_type == "RULE_MODIFIED")
        = [condModifiedDiff rid orule nrule] := by
    intro l
    induction l with
    | nil => intro _ h; cases h
    | cons e es ih =>
      intro hnodup hlook
      rw [List.map_cons] at hnodup
      obtain ⟨hk', hes⟩ := List.nodup_cons.mp hnodup
      rw [List.flatMap_cons, List.filter_append]
      cases hbeq : rid == e.1 with
      | true =>
        have hke : rid = e.1 := eq_of_beq hbeq
        have hv : e.2 = nrule := by
          simp only [List.lookup, hbeq] at hlook
          exact Option.some.inj hlook
        have hdiff : diffForRule (dictOf (·.id) oldP.decision_rules) e
            = [condModifiedDiff e.1 orule nrule] := by
          show (match (dictOf (·.id) oldP.decision_rules).lookup e.1 with
              | none => [addedDiff e.1 e.2]
              | some o =>
                if o.condition ≠ e.2.condition then [condModifiedDiff e.1 o e.2]
                else if o.target_bin ≠ e.2.target_bin then
                  [targetModifiedDiff e.1 o e.2]
                else []) = _
          rw [← hke, ho]
          show (if orule.condition ≠ e.2.condition then [condModifiedDiff rid orule e.2]
              else if orule.target_bin ≠ e.2.target_bin then
                [targetModifiedDiff rid orule e.2]
              else []) = _
          rw [hv, if_pos hc]
        rw [hdiff]
        rw [List.filter_cons_of_pos (by simp [condModifiedDiff, ← hke])]
        have hrest : (es.flatMap (diffForRule (dictOf (·.id) oldP.decision_rules))).filter
            (fun d => d.rule_id == rid && d.diff_type == "RULE_MODIFIED") = [] := by
          rw [List.filter_eq_nil_iff]
          intro d hd hpred
          obtain ⟨e', he', hde'⟩ := List.mem_flatMap.mp hd
          have hid := diffForRule_rule_id _ e' d hde'
          rw [Bool.and_eq_true] at hpred
          have he'e : e'.1 = e.1 := by
            rw [← hid, eq_of_beq hpred.1]
            exact hke
          exact hk' (List.mem_map.mpr ⟨e', he', he'e⟩)
        rw [hrest, List.filter_nil, hke]
        rfl
      | false =>
        have hlook' : es.lookup rid = some nrule := by
          simpa only [List.lookup, hbeq] using hlook
        have hfirst : (diffForRule (dictOf (·.id) oldP.decision_rules) e).filter
            (fun d => d.rule_id == rid && d.diff_type == "RULE_MODIFIED") = [] := by
          rw [List.filter_eq_nil_iff]
          intro d hd hpred
          have hid := diffForRule_rule_id _ e d hd
          rw [Bool.and_eq_true] at hpred
          have heq2 : rid = e.1 := by
            rw [← eq_of_beq hpred.1]
            exact hid
          simp [heq2] at hbeq
        rw [hfirst, ih hes hlook']
        rfl
  rw [hmain (dictOf (·.id) newP.decision_rules)
    (dictOf_keys_nodup (·.id) newP.decision_rules) hn]
  rfl

/-- C9 (witness): the amended theorem applied to the concrete pair of
one-rule policies of the counterexample. -/
theorem diff_policies_both_changed_witness :
    (diff_policies sampleOldPolicy sampleNewPolicy).filter
        (fun d => d.rule_id == "r1" && d.diff_type == "RULE_MODIFIED")
      = [condModifiedDiff "r1" sampleOldRule sampleNewRule] :=
  diff_policies_both_changed sampleOldPolicy sampleNewPolicy "r1"
    sampleOldRule sampleNewRule rfl rfl (by decide) (by decide)

/-- C10: `diff_policies` emits a `THRESHOLD_CHANGED` diff exactly for the
safety-constraint parameters present (by name) in both policies with
differing numeric values; a parameter present in only one policy yields no
`THRESHOLD_CHANGED` diff at all, so added or removed safety constraints
are silently absent from the output. -/
theorem diff_policies_threshold_only_shared (oldP newP : ExecutablePolicy) :
    (∀ d ∈ diff_policies oldP newP, d.diff_type = "THRESHOLD_CHANGED" →
      ∃ p oc nc,
        (dictOf (·.parameter) oldP.safety_constraints).lookup p = some oc ∧
        (dictOf (·.parameter) newP.safety_constraints).lookup p = some nc ∧
        oc.value ≠ nc.value ∧ d = thresholdDiff p oc nc) ∧
    (∀ (p : String) (oc nc : SafetyConstraint),
      (dictOf (·.parameter) oldP.safety_constraints).lookup p = some oc →
      (dictOf (·.parameter) newP.safety_constraints).lookup p = some nc →
      oc.value ≠ nc.value →
      thresholdDiff p oc nc ∈ diff_policies oldP newP) ∧
    (∀ p : String,
      ((dictOf (·.parameter) oldP.safety_constraints).lookup p = none ∨
       (dictOf (·.parameter) newP.safety_constraints).lookup p = none) →
      ∀ d ∈ diff_policies oldP newP,
        ¬(d.diff_type = "THRESHOLD_CHANGED" ∧ d.rule_id = "safety_" ++ p)) := by
  have hforward : ∀ d ∈ diff_policies oldP newP, d.diff_type = "THRESHOLD_CHANGED" →
      ∃ p oc nc,
        (dictOf (·.parameter) oldP.safety_constraints).lookup p = some oc ∧
        (dictOf (·.parameter) newP.safety_constraints).lookup p = some nc ∧
        oc.value ≠ nc.value ∧ d = thresholdDiff p oc nc := by
    intro d hd hty
    rw [diff_policies_eq] at hd
    rcases List.mem_append.mp hd with hd' | hdC
    · rcases List.mem_append.mp hd' with hdA | hdB
      · obtain ⟨e, _, hde⟩ := List.mem_flatMap.mp hdA
        exact absurd hty (diffForRule_not_threshold _ e d hde)
      · obtain ⟨e, _, hde⟩ := List.mem_map.mp hdB
        rw [← hde] at hty
        have hne' : ("RULE_REMOVED" : String) ≠ "THRESHOLD_CHANGED" := by decide
        exact absurd hty hne'
    · obtain ⟨e, he, hde⟩ := List.mem_filterMap.mp hdC
      cases hl : (dictOf (·.parameter) oldP.safety_constraints).lookup e.1 with
      | none =>
        rw [hl] at hde
        cases hde
      | some oc =>
        rw [hl] at hde
        replace hde : (if oc.value ≠ e.2.value then some (thresholdDiff e.1 oc e.2)
            else none) = some d := hde
        by_cases hv : oc.value ≠ e.2.value
        · rw [if_pos hv] at hde
          refine ⟨e.1, oc, e.2, hl, ?_, hv, (Option.some.inj hde).symm⟩
          exact mem_lookup_of_nodup _ (dictOf_keys_nodup _ _) e.1 e.2 (by
            have : (e.1, e.2) = e := rfl
            rw [this]
            exact he)
        · rw [if_neg hv] at hde
          cases hde
  refine ⟨hforward, ?_, ?_⟩
  · intro p oc nc ho hn hne
    rw [diff_policies_eq]
    refine List.mem_append_right _ (List.mem_filterMap.mpr ⟨(p, nc), lookup_mem _ _ _ hn, ?_⟩)
    show (match (dictOf (·.parameter) oldP.safety_constraints).lookup p with
        | some oc => if oc.value ≠ nc.value then some (thresholdDiff p oc nc) else none
        | none => none) = some (thresholdDiff p oc nc)
    rw [ho]
    show (if oc.value ≠ nc.value then some (thresholdDiff p oc nc) else none) = _
    rw [if_pos hne]
  · intro p hp d hd ⟨hty, hrid⟩
    obtain ⟨p', oc, nc, ho', hn', _, hdval⟩ := hforward d hd hty
    have hpp : p' = p := by
      rw [hdval] at hrid
      have : "safety_" ++ p' = "safety_" ++ p := hrid
      have hdata := congrArg String.data this
      simp only [String.data_append] at hdata
      exact String.ext (List.append_cancel_left hdata)
    rw [hpp] at ho' hn'
    rcases hp with hnone | hnone
    · rw [ho'] at hnone
      cases hnone
    · rw [hn'] at hnone
      cases hnone

/-- C10 (witness): the membership direction applied to a concrete pair of
policies sharing the parameter `speed_pct` with values `80` and `60`. -/
theorem diff_policies_threshold_only_shared_witness :
    thresholdDiff "speed_pct"
        { id := "s1", parameter := "speed_pct", value := 80 }
        { id := "s2", parameter := "speed_pct", value := 60 }
      ∈ diff_policies
        { safety_constraints := [{ id := "s1", parameter := "speed_pct", value := 80 }] }
        { safety_constraints := [{ id := "s2", parameter := "speed_pct", value := 60 }] } :=
  (diff_policies_threshold_only_shared
      { safety_constraints := [{ id := "s1", parameter := "speed_pct", value := 80 }] }
      { safety_constraints := [{ id := "s2", parameter := "speed_pct", value := 60 }] }).2.1
    "speed_pct"
    { id := "s1", parameter := "speed_pct", value := 80 }
    { id := "s2", parameter := "speed_pct", value := 60 }
    rfl rfl (by decide)

end Havoc
